import Mathlib

/-!
Verification of the `ursa` retrosynthesis-route processing core.

This file gives a shallow embedding, in Lean 4, of the parts of the `ursa`
package that the specification's claims are about:

* `src/ursa/utils/hashing.py` — molecule and run hashing;
* `src/ursa/domain/schemas.py` — the canonical route data model
  (`MoleculeNode`, `ReactionNode`, `TargetInfo`, `BenchmarkTree`,
  `RunStatistics`) and its construction-time validator;
* `src/ursa/domain/tree.py` — the deduplication engine
  (`_generate_tree_signature`, `deduplicate_routes`);
* `src/ursa/adapters/aizynth_adapter.py` — the AiZynthFinder adapter;
* `src/ursa/core.py` — the manifest statistics assembled by
  `process_model_run`.

Python strings are modelled by Lean `String`; Python's `sorted` on strings
compares by code point, which we embed with an explicit lexicographic
comparison on the underlying character lists (`charListLe`).  The external
SHA-256 hex digest (`hashlib.sha256(...).hexdigest()`) is modelled by an
abstract digest function `h : String → String`, and the external
`canonicalize_smiles` collaborator by an abstract `canon : String → Option
String` (`none` models `InvalidSmilesError`).  Exceptions are modelled by
`Option`/`Except` results.
-/

namespace Ursa

/-! ### Python string ordering

Python's `sorted` on `str` orders lexicographically by Unicode code point.
-/

/-- Lexicographic `≤` on character lists, comparing code points; this is the
order Python uses to compare strings. -/
def charListLe : List Char → List Char → Bool
  | [], _ => true
  | _ :: _, [] => false
  | a :: as, b :: bs =>
    if a.toNat < b.toNat then true
    else if b.toNat < a.toNat then false
    else charListLe as bs

/-- Python's `<=` on strings: lexicographic comparison of the code points. -/
def strLe (a b : String) : Prop := charListLe a.data b.data = true

instance : DecidableRel strLe := fun a b => by
  unfold strLe
  infer_instance

theorem charListLe_total (a b : List Char) :
    charListLe a b = true ∨ charListLe b a = true := by
  induction a generalizing b with
  | nil => left; rfl
  | cons x xs ih =>
    cases b with
    | nil => right; rfl
    | cons y ys =>
      by_cases hxy : x.toNat < y.toNat
      · left; simp [charListLe, hxy]
      · by_cases hyx : y.toNat < x.toNat
        · right; simp [charListLe, hyx]
        · rcases ih ys with h | h
          · left; simp [charListLe, hxy, hyx, h]
          · right; simp [charListLe, hxy, hyx, h]

theorem char_eq_of_toNat_eq {x y : Char} (h : x.toNat = y.toNat) : x = y :=
  Char.eq_of_val_eq (UInt32.eq_of_toBitVec_eq (BitVec.eq_of_toNat_eq h))

theorem charListLe_antisymm (a b : List Char)
    (hab : charListLe a b = true) (hba : charListLe b a = true) : a = b := by
  induction a generalizing b with
  | nil =>
    cases b with
    | nil => rfl
    | cons y ys => simp [charListLe] at hba
  | cons x xs ih =>
    cases b with
    | nil => simp [charListLe] at hab
    | cons y ys =>
      by_cases hxy : x.toNat < y.toNat
      · simp only [charListLe, if_neg (Nat.lt_asymm hxy), if_pos hxy] at hba
        exact absurd hba (by simp)
      · by_cases hyx : y.toNat < x.toNat
        · simp only [charListLe, if_neg hxy, if_pos hyx] at hab
          exact absurd hab (by simp)
        · have hx : x = y := char_eq_of_toNat_eq (by omega)
          subst hx
          simp only [charListLe, if_neg (Nat.lt_irrefl _)] at hab hba
          exact congrArg (x :: ·) (ih ys hab hba)

theorem charListLe_trans (a b c : List Char)
    (hab : charListLe a b = true) (hbc : charListLe b c = true) :
    charListLe a c = true := by
  induction a generalizing b c with
  | nil => rfl
  | cons x xs ih =>
    cases b with
    | nil => simp [charListLe] at hab
    | cons y ys =>
      cases c with
      | nil => simp [charListLe] at hbc
      | cons z zs =>
        simp only [charListLe] at hab hbc ⊢
        by_cases hxy : x.toNat < y.toNat
        · by_cases hyz : y.toNat < z.toNat
          · simp [Nat.lt_trans hxy hyz]
          · by_cases hzy : z.toNat < y.toNat
            · simp [hyz, hzy] at hbc
            · have : y.toNat = z.toNat := by omega
              simp [this ▸ hxy]
        · by_cases hyx : y.toNat < x.toNat
          · simp [hxy, hyx] at hab
          · have hxyeq : x.toNat = y.toNat := by omega
            by_cases hyz : y.toNat < z.toNat
            · simp [hxyeq ▸ hyz]
            · by_cases hzy : z.toNat < y.toNat
              · simp [hyz, hzy] at hbc
              · have hxz : ¬ x.toNat < z.toNat := by omega
                have hzx : ¬ z.toNat < x.toNat := by omega
                simp only [if_neg hxy, if_neg hyx] at hab
                simp only [if_neg hyz, if_neg hzy] at hbc
                simp only [if_neg hxz, if_neg hzx]
                exact ih ys zs hab hbc

instance : IsTotal String strLe := ⟨fun a b => charListLe_total a.data b.data⟩

instance : IsTrans String strLe :=
  ⟨fun a b c hab hbc => charListLe_trans a.data b.data c.data hab hbc⟩

instance : IsAntisymm String strLe :=
  ⟨fun a b hab hba => congrArg String.mk (charListLe_antisymm a.data b.data hab hba)⟩

/-- Embedding of Python's `sorted` on a list of strings. -/
def sortStrings (l : List String) : List String :=
  l.insertionSort strLe

theorem sortStrings_perm (l : List String) : List.Perm (sortStrings l) l :=
  List.perm_insertionSort strLe l

theorem sortStrings_sorted (l : List String) : List.Sorted strLe (sortStrings l) :=
  List.sorted_insertionSort strLe l

/-- Python's `sorted` depends only on the multiset of elements: permuted inputs sort to
the same list. -/
theorem sortStrings_congr {l₁ l₂ : List String} (h : List.Perm l₁ l₂) :
    sortStrings l₁ = sortStrings l₂ :=
  List.eq_of_perm_of_sorted
    (((sortStrings_perm l₁).trans h).trans (sortStrings_perm l₂).symm)
    (sortStrings_sorted l₁) (sortStrings_sorted l₂)

/-! ### `src/ursa/utils/hashing.py`

The SHA-256 hex digest is the external `hashlib` collaborator; it is the
parameter `h : String → String` throughout.
-/

/-- Embedding of `generate_molecule_hash`: a `sha256-` prefixed digest of the
canonical SMILES string.  `h` models `hashlib.sha256(·.encode()).hexdigest()`. -/
def generate_molecule_hash (h : String → String) (smiles : String) : String :=
  "sha256-" ++ h smiles

/-- Embedding of `generate_run_hash`: sort the file hashes, concatenate the
model name with the sorted hashes, digest, and prefix with `ursa-run-`. -/
def generate_run_hash (h : String → String) (model_name : String)
    (file_hashes : List String) : String :=
  let sorted_hashes := sortStrings file_hashes
  let run_signature := model_name ++ String.join sorted_hashes
  "ursa-run-" ++ h run_signature

/-! ### `src/ursa/domain/schemas.py` — the canonical route model -/

/-- Embedding of `TargetInfo`: identity of the target molecule. -/
structure TargetInfo where
  smiles : String
  id : String
deriving DecidableEq

mutual
/-- Embedding of the `ReactionNode` pydantic model: one retrosynthetic step. -/
inductive ReactionNode : Type where
  | mk (id : String) (reaction_smiles : String) (reactants : List MoleculeNode) :
      ReactionNode
/-- Embedding of the `MoleculeNode` pydantic model: one molecule occurrence in
a route, with the reaction(s) that form it. -/
inductive MoleculeNode : Type where
  | mk (id : String) (molecule_hash : String) (smiles : String)
      ( is_starting_material : Bool) (reactions : List ReactionNode) : MoleculeNode
end

def ReactionNode.id : ReactionNode → String
  | .mk i _ _ => i

def ReactionNode.reaction_smiles : ReactionNode → String
  | .mk _ s _ => s

def ReactionNode.reactants : ReactionNode → List MoleculeNode
  | .mk _ _ rs => rs

def MoleculeNode.id : MoleculeNode → String
  | .mk i _ _ _ _ => i

def MoleculeNode.molecule_hash : MoleculeNode → String
  | .mk _ mh _ _ _ => mh

def MoleculeNode.smiles : MoleculeNode → String
  | .mk _ _ s _ _ => s

def MoleculeNode.is_starting_material : MoleculeNode → Bool
  | .mk _ _ _ b _ => b

def MoleculeNode.reactions : MoleculeNode → List ReactionNode
  | .mk _ _ _ _ rs => rs

/-- Embedding of the pydantic constructor `MoleculeNode(...)` together with its
`check_tree_logic` model validator: `none` models a raised `SchemaLogicError`.
Rule 1: a starting material cannot have reactions.  Rule 2: an intermediate
must have exactly one reaction. -/
def mkMoleculeNode (id molecule_hash smiles : String)
    ( is_starting_material : Bool) (reactions : List ReactionNode) :
    Option MoleculeNode :=
  let num_reactions := reactions.length
  if is_starting_material ∧ num_reactions > 0 then
    none
  else if ¬ is_starting_material ∧ num_reactions = 0 then
    none
  else if ¬ is_starting_material ∧ num_reactions > 1 then
    none
  else
    some (.mk id molecule_hash smiles is_starting_material reactions)

/-- Embedding of `BenchmarkTree`: the root aggregate of one route. -/
structure BenchmarkTree where
  target : TargetInfo
  retrosynthetic_tree : MoleculeNode

/-- Embedding of the pydantic constructor `BenchmarkTree(...)`.  The source
class (schemas.py lines 133-139) declares no model validator, so construction
from already-validated components performs no cross-field check and never
fails. -/
def mkBenchmarkTree (target : TargetInfo) (retrosynthetic_tree : MoleculeNode) :
    Option BenchmarkTree :=
  some ⟨target, retrosynthetic_tree⟩

/-- Embedding of `RunStatistics` (fields only; the derived quantities are the
functions below).  Python floats are modelled by `ℚ`. -/
structure RunStatistics where
  total_routes_in_raw_files : Nat
  routes_failed_validation : Nat
  routes_failed_transformation : Nat
  successful_routes_before_dedup : Nat
  final_unique_routes_saved : Nat
  targets_with_at_least_one_route : List String

def RunStatistics.total_failures (s : RunStatistics) : Nat :=
  s.routes_failed_validation + s.routes_failed_transformation

def RunStatistics.num_targets_with_routes (s : RunStatistics) : Nat :=
  s.targets_with_at_least_one_route.dedup.length

/-- Python's `round(q, 2)`, modelled with the rational rounding function.
(Python rounds exact half-cents to even; the claims under verification never
evaluate this function at such a point.) -/
def round2 (q : ℚ) : ℚ := (round (q * 100) : ℤ) / 100

/-- Embedding of the `RunStatistics.duplication_factor` property: ratio of
successful routes before and after deduplication, `0.0` when nothing was
saved. -/
def RunStatistics.duplication_factor (s : RunStatistics) : ℚ :=
  if s.final_unique_routes_saved = 0 then 0
  else round2 ((s.successful_routes_before_dedup : ℚ) / (s.final_unique_routes_saved : ℚ))

/-- A manifest statistics value: an integer or a float. -/
inductive StatVal : Type where
  | int (n : Nat) : StatVal
  | float (q : ℚ) : StatVal
deriving DecidableEq

/-- Embedding of `RunStatistics.to_manifest_dict` (keys in source order). -/
def RunStatistics.to_manifest_dict (s : RunStatistics) : List (String × StatVal) :=
  [("total_routes_in_raw_files", .int s.total_routes_in_raw_files),
   ("total_routes_failed_or_duplicate",
     .int (s.total_failures + (s.successful_routes_before_dedup - s.final_unique_routes_saved))),
   ("final_unique_routes_saved", .int s.final_unique_routes_saved),
   ("num_targets_with_at_least_one_route", .int s.num_targets_with_routes),
   ("duplication_factor", .float s.duplication_factor)]

/-! ### `src/ursa/domain/tree.py` — the deduplication engine

`_generate_tree_signature` recursively hashes a molecule node's synthetic
history, memoizing by node id (`memo : dict[str, str]`, modelled as an
association list).  `none` models a raised exception (an intermediate whose
`reactions` list is empty would make the Python code fail on
`node.reactions[0]`).
-/

/-- The memoization dictionary `memo : dict[str, str]`. -/
abbrev Memo := List (String × String)

mutual
/-- Embedding of `_generate_tree_signature`, threading the memo dictionary. -/
def genSigMemo (h : String → String) : MoleculeNode → Memo → Option (String × Memo)
  | .mk i mh _ sm reactions, memo =>
    match memo.lookup i with
    | some s => some (s, memo)
    | none =>
      if sm then
        some (mh, (i, mh) :: memo)
      else
        match reactions with
        | [] => none
        | .mk _ _ reactants :: _ =>
          match genSigMemoList h reactants memo with
          | none => none
          | some (reactant_signatures, memo1) =>
            let sorted_signatures := sortStrings reactant_signatures
            let signature_string := String.join sorted_signatures ++ ">>" ++ mh
            let final_signature := "tree_sha256:" ++ h signature_string
            some (final_signature, (i, final_signature) :: memo1)

/-- The `for reactant_node in node.reactions[0].reactants` loop of
`_generate_tree_signature`, collecting reactant signatures in order. -/
def genSigMemoList (h : String → String) :
    List MoleculeNode → Memo → Option (List String × Memo)
  | [], memo => some ([], memo)
  | n :: rest, memo =>
    match genSigMemo h n memo with
    | none => none
    | some (s, memo1) =>
      match genSigMemoList h rest memo1 with
      | none => none
      | some (ss, memo2) => some (s :: ss, memo2)
end

/-- The signature of a molecule tree as `deduplicate_routes` computes it: a
fresh memo dictionary per route. -/
def treeSignature (h : String → String) (t : MoleculeNode) : Option String :=
  match genSigMemo h t [] with
  | none => none
  | some (s, _) => some s

/-- The signature of a route: `_generate_tree_signature(route.retrosynthetic_tree, {})`. -/
def routeSignature (h : String → String) (r : BenchmarkTree) : Option String :=
  treeSignature h r.retrosynthetic_tree

/-- The loop of `deduplicate_routes`: `seen` is the set of seen signatures and
`acc` the accumulated `unique_routes` list.  `none` models an exception
escaping from `_generate_tree_signature`. -/
def dedupLoop (h : String → String) :
    List BenchmarkTree → List String → List BenchmarkTree → Option (List BenchmarkTree)
  | [], _, acc => some acc
  | route :: rest, seen, acc =>
    match routeSignature h route with
    | none => none
    | some s =>
      if s ∈ seen then dedupLoop h rest seen acc
      else dedupLoop h rest (s :: seen) (acc ++ [route])

/-- Embedding of `deduplicate_routes`: keep the first route carrying each
distinct signature. -/
def deduplicate_routes (h : String → String) (routes : List BenchmarkTree) :
    Option (List BenchmarkTree) :=
  dedupLoop h routes [] []

/-- Spec-side description of deduplication: walk the list in order keeping an
element exactly when its key was not seen among the earlier kept elements. -/
def keepFirstOccBy {α β : Type} [DecidableEq β] (key : α → β) :
    List α → List β → List α
  | [], _ => []
  | x :: xs, seen =>
    if key x ∈ seen then keepFirstOccBy key xs seen
    else x :: keepFirstOccBy key xs (key x :: seen)

/-! ### Proof infrastructure for the signature algorithm

`pureSig` is the memo-free recursion; we prove below that on trees whose node
ids are unique the memoized traversal computes exactly `pureSig`.
-/

mutual
/-- The memo-free version of `_generate_tree_signature`. -/
def pureSig (h : String → String) : MoleculeNode → Option String
  | .mk _ mh _ sm reactions =>
    if sm then some mh
    else
      match reactions with
      | [] => none
      | .mk _ _ reactants :: _ =>
        match pureSigList h reactants with
        | none => none
        | some ss =>
          some ("tree_sha256:" ++ h (String.join (sortStrings ss) ++ ">>" ++ mh))

/-- Memo-free signatures of a reactant list, in order. -/
def pureSigList (h : String → String) : List MoleculeNode → Option (List String)
  | [] => some []
  | n :: rest =>
    match pureSig h n with
    | none => none
    | some s =>
      match pureSigList h rest with
      | none => none
      | some ss => some (s :: ss)
end

mutual
/-- The molecule-node ids visited by the signature traversal, in visit order. -/
def nodeIds : MoleculeNode → List String
  | .mk i _ _ sm reactions =>
    if sm then [i]
    else
      match reactions with
      | [] => [i]
      | .mk _ _ reactants :: _ => i :: nodeIdsList reactants

/-- Ids visited across a reactant list. -/
def nodeIdsList : List MoleculeNode → List String
  | [] => []
  | n :: rest => nodeIds n ++ nodeIdsList rest
end

mutual
/-- Erase every node id in a molecule tree (used to state id-independence). -/
def eraseIdsM : MoleculeNode → MoleculeNode
  | .mk _ mh s sm rs => .mk "" mh s sm (eraseIdsRList rs)

def eraseIdsRList : List ReactionNode → List ReactionNode
  | [] => []
  | r :: rest => eraseIdsR r :: eraseIdsRList rest

def eraseIdsR : ReactionNode → ReactionNode
  | .mk _ s l => .mk "" s (eraseIdsMList l)

def eraseIdsMList : List MoleculeNode → List MoleculeNode
  | [] => []
  | n :: rest => eraseIdsM n :: eraseIdsMList rest
end

mutual
/-- The relation `MolPermStep t t'`: `t'` arises from `t` by permuting the reactants list of
exactly one reaction node, at any depth. -/
inductive MolPermStep : MoleculeNode → MoleculeNode → Prop where
  | mk {i mh s sm rs rs'} : RxnListPermStep rs rs' →
      MolPermStep (.mk i mh s sm rs) (.mk i mh s sm rs')

/-- The permuted reaction node sits at one position of the reactions list. -/
inductive RxnListPermStep : List ReactionNode → List ReactionNode → Prop where
  | head {r r' rest} : RxnPermStep r r' → RxnListPermStep (r :: rest) (r' :: rest)
  | tail {r rest rest'} : RxnListPermStep rest rest' →
      RxnListPermStep (r :: rest) (r :: rest')

/-- Either this reaction node's own reactant list is permuted, or the
permutation happens inside one of its reactants. -/
inductive RxnPermStep : ReactionNode → ReactionNode → Prop where
  | shuffle {i s l l'} : List.Perm l l' → RxnPermStep (.mk i s l) (.mk i s l')
  | deeper {i s l l'} : MolListPermStep l l' → RxnPermStep (.mk i s l) (.mk i s l')

/-- The permutation happens inside one element of a reactant list. -/
inductive MolListPermStep : List MoleculeNode → List MoleculeNode → Prop where
  | head {n n' rest} : MolPermStep n n' → MolListPermStep (n :: rest) (n' :: rest)
  | tail {n rest rest'} : MolListPermStep rest rest' →
      MolListPermStep (n :: rest) (n :: rest')
end

theorem lookup_cons_ne {j i v : String} {m : Memo} (hj : j ≠ i) :
    List.lookup j ((i, v) :: m) = List.lookup j m := by
  have hb : (j == i) = false := beq_eq_false_iff_ne.mpr hj
  simp [List.lookup, hb]

mutual
/-- On a tree whose visited node ids are fresh for the memo and mutually
distinct, the memoized traversal returns the memo-free signature, and the
returned memo is unchanged outside the tree's ids. -/
theorem genSigMemo_spec (h : String → String) (t : MoleculeNode) (m : Memo)
    (hnd : (nodeIds t).Nodup) (hm : ∀ i ∈ nodeIds t, m.lookup i = none) :
    (pureSig h t = none → genSigMemo h t m = none) ∧
    (∀ s, pureSig h t = some s → ∃ m', genSigMemo h t m = some (s, m') ∧
      ∀ j, j ∉ nodeIds t → m'.lookup j = m.lookup j) := by
  cases t with
  | mk i mh s sm rs =>
    cases sm with
    | true =>
      have hlookup : m.lookup i = none := hm i (by simp [nodeIds])
      refine ⟨fun hnone => by simp [pureSig] at hnone, fun s' hs' => ?_⟩
      have hs'' : s' = mh := by simpa [pureSig] using hs'.symm
      subst hs''
      refine ⟨(i, s') :: m, by simp [genSigMemo, hlookup], fun j hj => ?_⟩
      have hji : j ≠ i := by simpa [nodeIds] using hj
      exact lookup_cons_ne hji
    | false =>
      cases rs with
      | nil =>
        have hlookup : m.lookup i = none := hm i (by simp [nodeIds])
        refine ⟨fun _ => by simp [genSigMemo, hlookup], fun s' hs' => ?_⟩
        simp [pureSig] at hs'
      | cons r rest =>
        cases r with
        | mk rid rsm reactants =>
          have hids : nodeIds (.mk i mh s false (.mk rid rsm reactants :: rest)) =
              i :: nodeIdsList reactants := by simp [nodeIds]
          rw [hids] at hnd hm
          have hlookup : m.lookup i = none := hm i (List.mem_cons_self _ _)
          have hnd' : (nodeIdsList reactants).Nodup := (List.nodup_cons.mp hnd).2
          have hi : i ∉ nodeIdsList reactants := (List.nodup_cons.mp hnd).1
          have hm' : ∀ j ∈ nodeIdsList reactants, m.lookup j = none :=
            fun j hj => hm j (List.mem_cons_of_mem _ hj)
          have hspec := genSigMemoList_spec h reactants m hnd' hm'
          cases hL : pureSigList h reactants with
          | none =>
            have hnone := hspec.1 hL
            refine ⟨fun _ => by simp [genSigMemo, hlookup, hnone],
              fun s' hs' => ?_⟩
            simp [pureSig, hL] at hs'
          | some ss =>
            obtain ⟨m1, hgl, hagree⟩ := hspec.2 ss hL
            have hpure : pureSig h (.mk i mh s false (.mk rid rsm reactants :: rest)) =
                some ("tree_sha256:" ++ h (String.join (sortStrings ss) ++ ">>" ++ mh)) := by
              simp [pureSig, hL]
            refine ⟨fun hnone => by rw [hpure] at hnone; exact absurd hnone (by simp),
              fun s' hs' => ?_⟩
            have hs'' : s' = "tree_sha256:" ++ h (String.join (sortStrings ss) ++ ">>" ++ mh) := by
              rw [hpure] at hs'
              exact (Option.some_inj.mp hs').symm
            refine ⟨(i, s') :: m1, ?_, fun j hj => ?_⟩
            · simp [genSigMemo, hlookup, hgl, hs'']
            · rw [hids] at hj
              have hji : j ≠ i := by
                intro hrw
                exact hj (by rw [hrw]; exact List.mem_cons_self _ _)
              have hjr : j ∉ nodeIdsList reactants :=
                fun hmem => hj (List.mem_cons_of_mem _ hmem)
              rw [lookup_cons_ne hji]
              exact hagree j hjr

/-- List version of `genSigMemo_spec`, threading the memo across siblings. -/
theorem genSigMemoList_spec (h : String → String) (ls : List MoleculeNode) (m : Memo)
    (hnd : (nodeIdsList ls).Nodup) (hm : ∀ i ∈ nodeIdsList ls, m.lookup i = none) :
    (pureSigList h ls = none → genSigMemoList h ls m = none) ∧
    (∀ ss, pureSigList h ls = some ss → ∃ m', genSigMemoList h ls m = some (ss, m') ∧
      ∀ j, j ∉ nodeIdsList ls → m'.lookup j = m.lookup j) := by
  cases ls with
  | nil =>
    refine ⟨fun hnone => by simp [pureSigList] at hnone, fun ss hss => ?_⟩
    have : ss = [] := by simpa [pureSigList] using hss.symm
    subst this
    exact ⟨m, by simp [genSigMemoList], fun j _ => rfl⟩
  | cons n rest =>
    have hids : nodeIdsList (n :: rest) = nodeIds n ++ nodeIdsList rest := by
      simp [nodeIdsList]
    rw [hids] at hnd hm
    obtain ⟨hndn, hndr, hdisj⟩ := List.nodup_append.mp hnd
    have hmn : ∀ i ∈ nodeIds n, m.lookup i = none :=
      fun i hi => hm i (List.mem_append_left _ hi)
    have hspecn := genSigMemo_spec h n m hndn hmn
    cases hn : pureSig h n with
    | none =>
      have hnone := hspecn.1 hn
      refine ⟨fun _ => by simp [genSigMemoList, hnone], fun ss hss => ?_⟩
      simp [pureSigList, hn] at hss
    | some s =>
      obtain ⟨m1, hg1, hagree1⟩ := hspecn.2 s hn
      have hm1r : ∀ i ∈ nodeIdsList rest, m1.lookup i = none := fun i hi => by
        have hni : i ∉ nodeIds n := fun hmem => hdisj hmem hi
        rw [hagree1 i hni]
        exact hm i (List.mem_append_right _ hi)
      have hspecr := genSigMemoList_spec h rest m1 hndr hm1r
      cases hr : pureSigList h rest with
      | none =>
        have hnone := hspecr.1 hr
        refine ⟨fun _ => by simp [genSigMemoList, hg1, hnone], fun ss hss => ?_⟩
        simp [pureSigList, hn, hr] at hss
      | some ss =>
        obtain ⟨m2, hg2, hagree2⟩ := hspecr.2 ss hr
        refine ⟨fun hnone => by simp [pureSigList, hn, hr] at hnone,
          fun ss' hss' => ?_⟩
        have hss'' : ss' = s :: ss := by simpa [pureSigList, hn, hr] using hss'.symm
        subst hss''
        refine ⟨m2, by simp [genSigMemoList, hg1, hg2], fun j hj => ?_⟩
        have hjn : j ∉ nodeIds n := fun hmem => hj (List.mem_append_left _ hmem)
        have hjr : j ∉ nodeIdsList rest := fun hmem => hj (List.mem_append_right _ hmem)
        rw [hagree2 j hjr]
        exact hagree1 j hjn
end

/-- On a tree with mutually distinct node ids, the signature computed by the
deduplication engine equals the memo-free signature. -/
theorem treeSignature_eq_pureSig (h : String → String) (t : MoleculeNode)
    (hnd : (nodeIds t).Nodup) : treeSignature h t = pureSig h t := by
  have hspec := genSigMemo_spec h t [] hnd (fun i _ => rfl)
  cases hp : pureSig h t with
  | none => simp [treeSignature, hspec.1 hp]
  | some s =>
    obtain ⟨m', hg, _⟩ := hspec.2 s hp
    simp [treeSignature, hg]

theorem pureSigList_nil (h : String → String) : pureSigList h [] = some [] := by
  rw [pureSigList]

theorem pureSigList_cons_none_iff (h : String → String) (x : MoleculeNode)
    (xs : List MoleculeNode) :
    pureSigList h (x :: xs) = none ↔ pureSig h x = none ∨ pureSigList h xs = none := by
  rw [pureSigList]
  cases hx : pureSig h x <;> cases hxs : pureSigList h xs <;> simp

theorem pureSigList_cons_some_iff (h : String → String) (x : MoleculeNode)
    (xs : List MoleculeNode) (ss : List String) :
    pureSigList h (x :: xs) = some ss ↔
      ∃ s ss', pureSig h x = some s ∧ pureSigList h xs = some ss' ∧ ss = s :: ss' := by
  rw [pureSigList]
  cases hx : pureSig h x <;> cases hxs : pureSigList h xs <;> simp
  exact eq_comm

/-- Equation lemma: a starting-material node's memo-free signature. -/
theorem pureSig_sm (h : String → String) (i mh s : String) (rs : List ReactionNode) :
    pureSig h (.mk i mh s true rs) = some mh := by
  simp [pureSig]

/-- Equation lemma: an intermediate with no reaction has no signature. -/
theorem pureSig_nil (h : String → String) (i mh s : String) :
    pureSig h (.mk i mh s false []) = none := by
  simp [pureSig]

/-- Equation lemma: an intermediate's memo-free signature via its first
reaction's reactants. -/
theorem pureSig_rxn (h : String → String) (i mh s ri rsm : String)
    (l : List MoleculeNode) (rest : List ReactionNode) :
    pureSig h (.mk i mh s false (.mk ri rsm l :: rest)) =
      match pureSigList h l with
      | none => none
      | some ss =>
        some ("tree_sha256:" ++ h (String.join (sortStrings ss) ++ ">>" ++ mh)) := by
  simp [pureSig]

/-- Permuting a reactant list permutes its memo-free signature list (and
preserves definedness). -/
theorem pureSigList_perm (h : String → String) {l l' : List MoleculeNode}
    (hp : List.Perm l l') :
    (pureSigList h l = none → pureSigList h l' = none) ∧
    (∀ ss, pureSigList h l = some ss →
      ∃ ss', pureSigList h l' = some ss' ∧ List.Perm ss ss') := by
  induction hp with
  | nil => exact ⟨fun hnone => by simpa using hnone, fun ss hss => ⟨ss, hss, .refl _⟩⟩
  | cons x hperm ih =>
    constructor
    · intro hnone
      rcases (pureSigList_cons_none_iff h x _).mp hnone with hx | hxs
      · exact (pureSigList_cons_none_iff h x _).mpr (.inl hx)
      · exact (pureSigList_cons_none_iff h x _).mpr (.inr (ih.1 hxs))
    · intro ss hss
      obtain ⟨s, ss₁, hx, hl₁, rfl⟩ := (pureSigList_cons_some_iff h x _ ss).mp hss
      obtain ⟨ss₂, hss₂, hperm₂⟩ := ih.2 ss₁ hl₁
      exact ⟨s :: ss₂, (pureSigList_cons_some_iff h x _ _).mpr ⟨s, ss₂, hx, hss₂, rfl⟩,
        hperm₂.cons s⟩
  | swap x y l =>
    constructor
    · intro hnone
      rcases (pureSigList_cons_none_iff h y _).mp hnone with hy | hys
      · exact (pureSigList_cons_none_iff h x _).mpr
          (.inr ((pureSigList_cons_none_iff h y _).mpr (.inl hy)))
      · rcases (pureSigList_cons_none_iff h x _).mp hys with hx | hl
        · exact (pureSigList_cons_none_iff h x _).mpr (.inl hx)
        · exact (pureSigList_cons_none_iff h x _).mpr
            (.inr ((pureSigList_cons_none_iff h y _).mpr (.inr hl)))
    · intro ss hss
      obtain ⟨sy, ss₁, hy, hl₁, rfl⟩ := (pureSigList_cons_some_iff h y _ ss).mp hss
      obtain ⟨sx, ss₂, hx, hl₂, rfl⟩ := (pureSigList_cons_some_iff h x _ ss₁).mp hl₁
      refine ⟨sx :: sy :: ss₂, ?_, List.Perm.swap sx sy ss₂⟩
      exact (pureSigList_cons_some_iff h x _ _).mpr
        ⟨sx, sy :: ss₂, hx, (pureSigList_cons_some_iff h y _ _).mpr ⟨sy, ss₂, hy, hl₂, rfl⟩, rfl⟩
  | trans h₁ h₂ ih₁ ih₂ =>
    refine ⟨fun hnone => ih₂.1 (ih₁.1 hnone), fun ss hss => ?_⟩
    obtain ⟨ss₁, hss₁, hp₁⟩ := ih₁.2 ss hss
    obtain ⟨ss₂, hss₂, hp₂⟩ := ih₂.2 ss₁ hss₁
    exact ⟨ss₂, hss₂, hp₁.trans hp₂⟩

/-- Shuffling the reactants of the first reaction leaves the memo-free
signature unchanged. -/
theorem pureSig_shuffle_aux (h : String → String) (i mh s ri rsm : String)
    (rest : List ReactionNode) {l l' : List MoleculeNode}
    (hperm : List.Perm l l') :
    pureSig h (.mk i mh s false (.mk ri rsm l :: rest)) =
    pureSig h (.mk i mh s false (.mk ri rsm l' :: rest)) := by
  have hpp := pureSigList_perm h hperm
  rw [pureSig_rxn, pureSig_rxn]
  cases hl : pureSigList h l with
  | none => rw [hpp.1 hl]
  | some ss =>
    obtain ⟨ss', hss', hperm'⟩ := hpp.2 ss hl
    rw [hss']
    simp [sortStrings_congr hperm']

/-- The signature reads only the first reaction: the tail of the reactions
list is irrelevant. -/
theorem pureSig_tail_aux (h : String → String) (i mh s : String) (r : ReactionNode)
    (rest rest' : List ReactionNode) :
    pureSig h (.mk i mh s false (r :: rest)) =
    pureSig h (.mk i mh s false (r :: rest')) := by
  cases r with
  | mk ri rsm l => rw [pureSig_rxn, pureSig_rxn]

mutual
/-- Permuting one reactant list anywhere in the tree leaves the memo-free
signature unchanged. -/
theorem pureSig_molStep (h : String → String) {t t' : MoleculeNode}
    (hp : MolPermStep t t') : pureSig h t = pureSig h t' := by
  cases hp with
  | mk hr =>
    rename_i i mh s sm rs rs'
    cases sm with
    | true => rw [pureSig_sm, pureSig_sm]
    | false =>
      cases hr with
      | tail hrest => exact pureSig_tail_aux h _ _ _ _ _ _
      | head hstep =>
        cases hstep with
        | shuffle hperm => exact pureSig_shuffle_aux h _ _ _ _ _ _ hperm
        | deeper hlist =>
          rw [pureSig_rxn, pureSig_rxn, pureSigList_molsStep h hlist]

/-- List version of `pureSig_molStep`. -/
theorem pureSigList_molsStep (h : String → String) {l l' : List MoleculeNode}
    (hp : MolListPermStep l l') : pureSigList h l = pureSigList h l' := by
  cases hp with
  | head hstep => rw [pureSigList, pureSigList, pureSig_molStep h hstep]
  | tail hrest => rw [pureSigList, pureSigList, pureSigList_molsStep h hrest]
end

theorem nodeIds_sm (i mh s : String) (rs : List ReactionNode) :
    nodeIds (.mk i mh s true rs) = [i] := by
  simp [nodeIds]

theorem nodeIds_rxn (i mh s ri rsm : String) (l : List MoleculeNode)
    (rest : List ReactionNode) :
    nodeIds (.mk i mh s false (.mk ri rsm l :: rest)) = i :: nodeIdsList l := by
  simp [nodeIds]

/-- Permuting a reactant list permutes the visited-id list. -/
theorem nodeIdsList_perm {l l' : List MoleculeNode} (hp : List.Perm l l') :
    List.Perm (nodeIdsList l) (nodeIdsList l') := by
  induction hp with
  | nil => exact .refl _
  | cons x hperm ih => simpa [nodeIdsList] using ih.append_left (nodeIds x)
  | swap x y l =>
    simp only [nodeIdsList, ← List.append_assoc]
    exact (List.perm_append_comm).append_right _
  | trans h₁ h₂ ih₁ ih₂ => exact ih₁.trans ih₂

mutual
/-- A one-reactant-list permutation permutes the visited-id list. -/
theorem nodeIds_molStep {t t' : MoleculeNode} (hp : MolPermStep t t') :
    List.Perm (nodeIds t) (nodeIds t') := by
  cases hp with
  | mk hr =>
    rename_i i mh s sm rs rs'
    cases sm with
    | true => rw [nodeIds_sm, nodeIds_sm]
    | false =>
      cases hr with
      | tail hrest =>
        rename_i r _ _
        cases r with
        | mk ri rsm l => rw [nodeIds_rxn, nodeIds_rxn]
      | head hstep =>
        cases hstep with
        | shuffle hperm =>
          rw [nodeIds_rxn, nodeIds_rxn]
          exact (nodeIdsList_perm hperm).cons _
        | deeper hlist =>
          rw [nodeIds_rxn, nodeIds_rxn]
          exact (nodeIdsList_molsStep hlist).cons _

/-- List version of `nodeIds_molStep`. -/
theorem nodeIdsList_molsStep {l l' : List MoleculeNode} (hp : MolListPermStep l l') :
    List.Perm (nodeIdsList l) (nodeIdsList l') := by
  cases hp with
  | head hstep =>
    rw [nodeIdsList, nodeIdsList]
    exact (nodeIds_molStep hstep).append (.refl _)
  | tail hrest =>
    rw [nodeIdsList, nodeIdsList]
    exact (List.Perm.refl _).append (nodeIdsList_molsStep hrest)
end

mutual
/-- The memo-free signature never reads node ids: trees with the same
id-erasure have the same signature. -/
theorem pureSig_eraseIds (h : String → String) {t1 t2 : MoleculeNode}
    (he : eraseIdsM t1 = eraseIdsM t2) : pureSig h t1 = pureSig h t2 := by
  cases t1 with
  | mk i1 mh1 s1 sm1 rs1 =>
    cases t2 with
    | mk i2 mh2 s2 sm2 rs2 =>
      rw [eraseIdsM, eraseIdsM] at he
      injection he with _ hmh hs hsm hrs
      subst hmh; subst hs; subst hsm
      cases sm1 with
      | true => rw [pureSig_sm, pureSig_sm]
      | false =>
        cases rs1 with
        | nil =>
          cases rs2 with
          | nil => rfl
          | cons r2 rest2 => rw [eraseIdsRList, eraseIdsRList] at hrs; exact absurd hrs (by simp)
        | cons r1 rest1 =>
          cases rs2 with
          | nil => rw [eraseIdsRList, eraseIdsRList] at hrs; exact absurd hrs (by simp)
          | cons r2 rest2 =>
            rw [eraseIdsRList, eraseIdsRList] at hrs
            injection hrs with hr _
            cases r1 with
            | mk ri1 rsm1 l1 =>
              cases r2 with
              | mk ri2 rsm2 l2 =>
                rw [eraseIdsR, eraseIdsR] at hr
                injection hr with _ hrsm hl
                rw [pureSig_rxn, pureSig_rxn, pureSigList_eraseIds h hl]

/-- List version of `pureSig_eraseIds`. -/
theorem pureSigList_eraseIds (h : String → String) {l1 l2 : List MoleculeNode}
    (he : eraseIdsMList l1 = eraseIdsMList l2) : pureSigList h l1 = pureSigList h l2 := by
  cases l1 with
  | nil =>
    cases l2 with
    | nil => rfl
    | cons n2 rest2 => rw [eraseIdsMList, eraseIdsMList] at he; exact absurd he (by simp)
  | cons n1 rest1 =>
    cases l2 with
    | nil => rw [eraseIdsMList, eraseIdsMList] at he; exact absurd he (by simp)
    | cons n2 rest2 =>
      rw [eraseIdsMList, eraseIdsMList] at he
      injection he with hn hrest
      rw [pureSigList, pureSigList, pureSig_eraseIds h hn, pureSigList_eraseIds h hrest]
end

/-! ### String-level facts used for run-hash sensitivity -/

theorem str_data_inj {s t : String} (h : s.data = t.data) : s = t :=
  congrArg String.mk h

theorem str_append_left_cancel {a b c : String} (h : a ++ b = a ++ c) : b = c := by
  have hd : a.data ++ b.data = a.data ++ c.data := by
    rw [← String.data_append, ← String.data_append, h]
  exact str_data_inj (List.append_cancel_left hd)

theorem str_append_right_cancel {a b c : String} (h : a ++ c = b ++ c) : a = b := by
  have hd : a.data ++ c.data = b.data ++ c.data := by
    rw [← String.data_append, ← String.data_append, h]
  exact str_data_inj (List.append_cancel_right hd)

theorem foldl_append_data (l : List String) (acc : String) :
    (l.foldl (· ++ ·) acc).data = acc.data ++ (l.map String.data).flatten := by
  induction l generalizing acc with
  | nil => simp
  | cons x xs ih =>
    rw [List.foldl_cons, ih]
    simp [String.data_append]

theorem join_data (l : List String) :
    (String.join l).data = (l.map String.data).flatten := by
  have := foldl_append_data l ""
  simpa [String.join] using this

/-- Concatenation of equally many equal-length character lists is injective. -/
theorem flatten_inj_of_fixed_length (L : Nat) :
    ∀ (A B : List (List Char)), (∀ a ∈ A, a.length = L) → (∀ b ∈ B, b.length = L) →
      A.length = B.length → A.flatten = B.flatten → A = B := by
  intro A
  induction A with
  | nil =>
    intro B _ _ hlen _
    cases B with
    | nil => rfl
    | cons b bs => simp at hlen
  | cons a as ih =>
    intro B hA hB hlen hflat
    cases B with
    | nil => simp at hlen
    | cons b bs =>
      rw [List.flatten_cons, List.flatten_cons] at hflat
      have hab : a.length = b.length := by
        rw [hA a (List.mem_cons_self _ _), hB b (List.mem_cons_self _ _)]
      obtain ⟨h1, h2⟩ := List.append_inj hflat hab
      have := ih bs (fun x hx => hA x (List.mem_cons_of_mem _ hx))
        (fun x hx => hB x (List.mem_cons_of_mem _ hx)) (by simpa using hlen) h2
      rw [h1, this]

/-- A permutation between lists that differ in exactly one position forces the
differing elements to be equal. -/
theorem perm_single_change {x y : String} {pre post : List String}
    (hp : List.Perm (pre ++ x :: post) (pre ++ y :: post)) : x = y := by
  have h1 : List.Perm (x :: (pre ++ post)) (y :: (pre ++ post)) :=
    (List.perm_middle.symm.trans hp).trans List.perm_middle
  have hc := h1.count_eq x
  rw [List.count_cons, List.count_cons] at hc
  by_cases hxy : y = x
  · exact hxy.symm
  · simp [hxy] at hc

/-! ### Deduplication: loop characterization -/

theorem mem_map_some_iff (s : String) (seen : List String) :
    some s ∈ seen.map some ↔ s ∈ seen := by
  simp

theorem dedupLoop_cons_some (h : String → String) (r : BenchmarkTree)
    (rest : List BenchmarkTree) (seen : List String) (acc : List BenchmarkTree)
    (s : String) (hs : routeSignature h r = some s) :
    dedupLoop h (r :: rest) seen acc =
      if s ∈ seen then dedupLoop h rest seen acc
      else dedupLoop h rest (s :: seen) (acc ++ [r]) := by
  rw [dedupLoop, hs]

/-- The loop of `deduplicate_routes` computes `keepFirstOccBy` on the route
signature, appended to the accumulator. -/
theorem dedupLoop_eq (h : String → String) (routes : List BenchmarkTree) :
    ∀ (seen : List String) (acc : List BenchmarkTree),
      (∀ r ∈ routes, (routeSignature h r).isSome = true) →
      dedupLoop h routes seen acc =
        some (acc ++ keepFirstOccBy (fun r => routeSignature h r) routes (seen.map some)) := by
  induction routes with
  | nil => intro seen acc _; simp [dedupLoop, keepFirstOccBy]
  | cons r rest ih =>
    intro seen acc hall
    obtain ⟨s, hs⟩ := Option.isSome_iff_exists.mp (hall r (List.mem_cons_self _ _))
    have hrest : ∀ x ∈ rest, (routeSignature h x).isSome = true :=
      fun x hx => hall x (List.mem_cons_of_mem _ hx)
    rw [dedupLoop_cons_some h r rest seen acc s hs, keepFirstOccBy, hs]
    by_cases hmem : s ∈ seen
    · rw [if_pos hmem, if_pos ((mem_map_some_iff s seen).mpr hmem), ih seen acc hrest]
    · rw [if_neg hmem, if_neg (fun hc => hmem ((mem_map_some_iff s seen).mp hc)),
        ih (s :: seen) (acc ++ [r]) hrest]
      simp

/-- What `keepFirstOccBy` keeps is a sublist of its input. -/
theorem keepFirstOccBy_sublist {α β : Type} [DecidableEq β] (key : α → β) :
    ∀ (l : List α) (seen : List β), List.Sublist (keepFirstOccBy key l seen) l := by
  intro l
  induction l with
  | nil => intro seen; simp [keepFirstOccBy]
  | cons x xs ih =>
    intro seen
    rw [keepFirstOccBy]
    by_cases hmem : key x ∈ seen
    · rw [if_pos hmem]; exact (ih seen).cons x
    · rw [if_neg hmem]; exact (ih (key x :: seen)).cons₂ x

/-- The kept elements have mutually distinct keys, none of them previously
seen. -/
theorem keepFirstOccBy_nodup {α β : Type} [DecidableEq β] (key : α → β) :
    ∀ (l : List α) (seen : List β),
      ((keepFirstOccBy key l seen).map key).Nodup ∧
      ∀ k ∈ (keepFirstOccBy key l seen).map key, k ∉ seen := by
  intro l
  induction l with
  | nil => intro seen; simp [keepFirstOccBy]
  | cons x xs ih =>
    intro seen
    rw [keepFirstOccBy]
    by_cases hmem : key x ∈ seen
    · rw [if_pos hmem]; exact ih seen
    · rw [if_neg hmem]
      obtain ⟨hnd, hout⟩ := ih (key x :: seen)
      refine ⟨List.nodup_cons.mpr ⟨fun hc => ?_, hnd⟩, fun k hk => ?_⟩
      · exact hout (key x) hc (List.mem_cons_self _ _)
      · rcases List.mem_cons.mp hk with hk | hk
        · exact hk ▸ hmem
        · exact fun hc => hout k hk (List.mem_cons_of_mem _ hc)

/-- Every key of the input is represented: either already seen, or among the
kept elements' keys. -/
theorem keepFirstOccBy_complete {α β : Type} [DecidableEq β] (key : α → β) :
    ∀ (l : List α) (seen : List β) (x : α), x ∈ l →
      key x ∈ seen ∨ key x ∈ (keepFirstOccBy key l seen).map key := by
  intro l
  induction l with
  | nil => intro seen x hx; simp at hx
  | cons a as ih =>
    intro seen x hx
    rw [keepFirstOccBy]
    by_cases hmem : key a ∈ seen
    · rw [if_pos hmem]
      rcases List.mem_cons.mp hx with rfl | hx
      · exact .inl hmem
      · exact ih seen x hx
    · rw [if_neg hmem]
      rcases List.mem_cons.mp hx with rfl | hx
      · exact .inr (by simp)
      · rcases ih (key a :: seen) x hx with hin | hin
        · rcases List.mem_cons.mp hin with heq | hin
          · exact .inr (by simp [heq])
          · exact .inl hin
        · exact .inr (List.mem_cons_of_mem _ hin)

/-! ### Run-hash sensitivity lemmas -/

theorem run_hash_perm_invariant (h : String → String) (model : String)
    (l1 l2 : List String) (hp : List.Perm l1 l2) :
    generate_run_hash h model l1 = generate_run_hash h model l2 := by
  unfold generate_run_hash
  rw [sortStrings_congr hp]

theorem run_hash_model_sensitive (h : String → String) (hinj : Function.Injective h)
    (m1 m2 : String) (l : List String) (hne : m1 ≠ m2) :
    generate_run_hash h m1 l ≠ generate_run_hash h m2 l := by
  intro heq
  unfold generate_run_hash at heq
  exact hne (str_append_right_cancel (hinj (str_append_left_cancel heq)))

theorem run_hash_single_change (h : String → String) (hinj : Function.Injective h)
    (model : String) (L : Nat) (pre post : List String) (x y : String)
    (hlen : ∀ s ∈ pre ++ x :: post, s.length = L) (hy : y.length = L) (hxy : x ≠ y) :
    generate_run_hash h model (pre ++ x :: post) ≠
    generate_run_hash h model (pre ++ y :: post) := by
  intro heq
  unfold generate_run_hash at heq
  have hjoin : String.join (sortStrings (pre ++ x :: post)) =
      String.join (sortStrings (pre ++ y :: post)) :=
    str_append_left_cancel (hinj (str_append_left_cancel heq))
  have hflat : ((sortStrings (pre ++ x :: post)).map String.data).flatten =
      ((sortStrings (pre ++ y :: post)).map String.data).flatten := by
    rw [← join_data, ← join_data, hjoin]
  have hlx : ∀ a ∈ (sortStrings (pre ++ x :: post)).map String.data, a.length = L := by
    intro a ha
    obtain ⟨s, hs, rfl⟩ := List.mem_map.mp ha
    exact hlen s ((sortStrings_perm _).mem_iff.mp hs)
  have hly : ∀ a ∈ (sortStrings (pre ++ y :: post)).map String.data, a.length = L := by
    intro a ha
    obtain ⟨s, hs, rfl⟩ := List.mem_map.mp ha
    have hs' : s ∈ pre ++ y :: post := (sortStrings_perm _).mem_iff.mp hs
    rcases List.mem_append.mp hs' with hpre | htail
    · exact hlen s (List.mem_append_left _ hpre)
    · rcases List.mem_cons.mp htail with rfl | hpost
      · exact hy
      · exact hlen s (List.mem_append_right _ (List.mem_cons_of_mem _ hpost))
  have hlens : ((sortStrings (pre ++ x :: post)).map String.data).length =
      ((sortStrings (pre ++ y :: post)).map String.data).length := by
    simp [(sortStrings_perm (pre ++ x :: post)).length_eq,
      (sortStrings_perm (pre ++ y :: post)).length_eq]
  have hmap := flatten_inj_of_fixed_length L _ _ hlx hly hlens hflat
  have hsort : sortStrings (pre ++ x :: post) = sortStrings (pre ++ y :: post) :=
    List.map_injective_iff.mpr (fun a b hab => str_data_inj hab) hmap
  have hperm : List.Perm (pre ++ x :: post) (pre ++ y :: post) :=
    ((sortStrings_perm _).symm.trans (hsort ▸ sortStrings_perm (pre ++ y :: post)))
  exact hxy (perm_single_change hperm)

/-! ### Example routes used for witnesses and counterexamples -/

/-- Starting material `A` at path `root-0`. -/
def exA : MoleculeNode := .mk "root-0" "sha256-HA" "A" true []

/-- Starting material `B` at path `root-1`. -/
def exB : MoleculeNode := .mk "root-1" "sha256-HB" "B" true []

/-- Route `A+B→T` with reactants listed `[A, B]`. -/
def exRoute1 : BenchmarkTree :=
  ⟨⟨"T", "t1"⟩, .mk "root" "sha256-HT" "T" false [.mk "rxn-root" "A.B>>T" [exA, exB]]⟩

/-- Route `B+A→T`: identical content, reactants listed `[B, A]`. -/
def exRoute2 : BenchmarkTree :=
  ⟨⟨"T", "t1"⟩, .mk "root" "sha256-HT" "T" false [.mk "rxn-root" "A.B>>T" [exB, exA]]⟩

/-- Route `C→T`, a semantically different synthesis of the same target. -/
def exRouteC : BenchmarkTree :=
  ⟨⟨"T", "t1"⟩, .mk "root" "sha256-HT" "T" false
    [.mk "rxn-root" "C>>T" [.mk "root-0" "sha256-HC" "C" true []]]⟩

/-- The same content as `exRoute1` but with entirely different node ids. -/
def exRoute1RenamedIds : BenchmarkTree :=
  ⟨⟨"T", "t1"⟩, .mk "n0" "sha256-HT" "T" false
    [.mk "x1" "A.B>>T" [.mk "n1" "sha256-HA" "A" true [], .mk "n2" "sha256-HB" "B" true []]]⟩

/-- Two starting materials that share the id `dup` but have different hashes. -/
def dupX : MoleculeNode := .mk "dup" "sha256-HA" "A" true []

def dupY : MoleculeNode := .mk "dup" "sha256-HB" "B" true []

/-- A route whose two reactants carry the same node id `dup`. -/
def dupRoute1 : BenchmarkTree :=
  ⟨⟨"T", "t1"⟩, .mk "root" "sha256-HT" "T" false [.mk "rxn-root" "A.B>>T" [dupX, dupY]]⟩

/-- The route `dupRoute1` with its reactants listed in the other order. -/
def dupRoute2 : BenchmarkTree :=
  ⟨⟨"T", "t1"⟩, .mk "root" "sha256-HT" "T" false [.mk "rxn-root" "A.B>>T" [dupY, dupX]]⟩

/-! ### Claim C1 — reactant-order invariance of the route signature -/

/-- C1 (amended): for every `BenchmarkTree` whose node ids are unique within
the tree, permuting the reactants list of any reaction node, recursively at
any depth, yields a tree with the same Deduplication Engine signature.  (The
uniqueness hypothesis is forced: the memo dictionary is keyed by node id, so
duplicated ids can make the signature depend on traversal order, see
`C1_counterexample`.) -/
theorem C1_reactant_order_invariance (h : String → String) (r r' : BenchmarkTree)
    (hstep : MolPermStep r.retrosynthetic_tree r'.retrosynthetic_tree)
    (hnd : (nodeIds r.retrosynthetic_tree).Nodup) :
    routeSignature h r = routeSignature h r' := by
  have hnd' : (nodeIds r'.retrosynthetic_tree).Nodup := hnd.perm (nodeIds_molStep hstep)
  unfold routeSignature
  rw [treeSignature_eq_pureSig h _ hnd, treeSignature_eq_pureSig h _ hnd']
  exact pureSig_molStep h hstep

/-- C1 counterexample: with duplicated node ids (legal for the pydantic
constructor, which never checks id uniqueness), permuting the reactants
changes the signature — the memo poisons the second lookup of the shared id. -/
theorem C1_counterexample :
    MolPermStep dupRoute1.retrosynthetic_tree dupRoute2.retrosynthetic_tree ∧
    routeSignature (fun s => s) dupRoute1 ≠ routeSignature (fun s => s) dupRoute2 :=
  ⟨.mk (.head (.shuffle (List.Perm.swap dupY dupX []))), by decide⟩

/-- Witness for `C1_reactant_order_invariance` at the concrete routes
`A+B→T` and `B+A→T`. -/
theorem C1_witness :
    MolPermStep exRoute1.retrosynthetic_tree exRoute2.retrosynthetic_tree ∧
    (nodeIds exRoute1.retrosynthetic_tree).Nodup ∧
    routeSignature (fun s => s) exRoute1 = routeSignature (fun s => s) exRoute2 :=
  ⟨.mk (.head (.shuffle (List.Perm.swap exB exA []))), by decide,
   C1_reactant_order_invariance (fun s => s) exRoute1 exRoute2
     (.mk (.head (.shuffle (List.Perm.swap exB exA [])))) (by decide)⟩

/-! ### Claim C9 — id independence of the route signature -/

/-- C9: two trees with identical structure and content (witnessed by equal
id-erasures) and with ids unique within each tree get the same signature. -/
theorem C9_id_independence (h : String → String) (r1 r2 : BenchmarkTree)
    (hnd1 : (nodeIds r1.retrosynthetic_tree).Nodup)
    (hnd2 : (nodeIds r2.retrosynthetic_tree).Nodup)
    (hcontent : eraseIdsM r1.retrosynthetic_tree = eraseIdsM r2.retrosynthetic_tree) :
    routeSignature h r1 = routeSignature h r2 := by
  unfold routeSignature
  rw [treeSignature_eq_pureSig h _ hnd1, treeSignature_eq_pureSig h _ hnd2]
  exact pureSig_eraseIds h hcontent

/-- Witness for `C9_id_independence`: `exRoute1` against the same content
under entirely different node ids. -/
theorem C9_witness :
    (nodeIds exRoute1.retrosynthetic_tree).Nodup ∧
    (nodeIds exRoute1RenamedIds.retrosynthetic_tree).Nodup ∧
    eraseIdsM exRoute1.retrosynthetic_tree =
      eraseIdsM exRoute1RenamedIds.retrosynthetic_tree ∧
    routeSignature (fun s => s) exRoute1 = routeSignature (fun s => s) exRoute1RenamedIds :=
  ⟨by decide, by decide, by rfl,
   C9_id_independence (fun s => s) exRoute1 exRoute1RenamedIds (by decide) (by decide) (by rfl)⟩

/-! ### Claim C2 — node construction invariants -/

/-- C2: constructing a `MoleculeNode` succeeds exactly for a starting material
with zero reactions or an intermediate with exactly one reaction; every other
combination raises `SchemaLogicError`. -/
theorem C2_node_invariant_enforcement (i mh s : String) (b : Bool)
    (rs : List ReactionNode) :
    (mkMoleculeNode i mh s b rs).isSome = (b && rs.isEmpty || !b && (rs.length == 1)) := by
  cases b with
  | true =>
    cases rs with
    | nil => simp [mkMoleculeNode]
    | cons r rest => simp [mkMoleculeNode]
  | false =>
    cases rs with
    | nil => simp [mkMoleculeNode]
    | cons r rest =>
      cases rest with
      | nil => simp [mkMoleculeNode]
      | cons r2 rest2 => simp [mkMoleculeNode]

/-! ### Claim C3 — run-hash determinism and sensitivity -/

/-- C3 (amended): the run hash is invariant under permutations of the hash
list; with an injective digest, changing the model name changes the run hash;
and changing a single hash changes the run hash provided the file hashes all
have one common length (as the 64-character SHA-256 hex digests used by the
pipeline do).  The length proviso is forced: for unequal-length entries a
single-element change can leave the concatenation of the sorted hashes — and
hence the run hash — unchanged, see `C3_counterexample`. -/
theorem C3_run_hash_determinism :
    (∀ (h : String → String) (model : String) (l1 l2 : List String),
       List.Perm l1 l2 → generate_run_hash h model l1 = generate_run_hash h model l2) ∧
    (∀ (h : String → String), Function.Injective h →
       ∀ (m1 m2 : String) (l : List String), m1 ≠ m2 →
         generate_run_hash h m1 l ≠ generate_run_hash h m2 l) ∧
    (∀ (h : String → String), Function.Injective h →
       ∀ (model : String) (L : Nat) (pre post : List String) (x y : String),
         (∀ s ∈ pre ++ x :: post, s.length = L) → y.length = L → x ≠ y →
           generate_run_hash h model (pre ++ x :: post) ≠
           generate_run_hash h model (pre ++ y :: post)) :=
  ⟨run_hash_perm_invariant,
   fun h hinj m1 m2 l => run_hash_model_sensitive h hinj m1 m2 l,
   fun h hinj model L pre post x y => run_hash_single_change h hinj model L pre post x y⟩

/-- C3 counterexample: changing the single hash `"ba"` to `"ab"` (the lists
differ in their second element) does not change the run hash — both sorted
concatenations are `"ababa"` — even for an injective digest (`fun s => s`). -/
theorem C3_counterexample :
    ("ba" : String) ≠ "ab" ∧
    generate_run_hash (fun s => s) "m" ["aba", "ba"] =
      generate_run_hash (fun s => s) "m" ["aba", "ab"] :=
  ⟨by decide, by decide⟩

/-- Witness for `C3_run_hash_determinism` at concrete inputs. -/
theorem C3_witness :
    generate_run_hash (fun s => s) "m" ["h2", "h1"] =
      generate_run_hash (fun s => s) "m" ["h1", "h2"] ∧
    generate_run_hash (fun s => s) "model-a" ["hx"] ≠
      generate_run_hash (fun s => s) "model-b" ["hx"] ∧
    generate_run_hash (fun s => s) "m" ["aa", "bb"] ≠
      generate_run_hash (fun s => s) "m" ["aa", "cc"] :=
  ⟨C3_run_hash_determinism.1 (fun s => s) "m" _ _ (List.Perm.swap "h1" "h2" []),
   C3_run_hash_determinism.2.1 (fun s => s) (fun _ _ hh => hh) "model-a" "model-b" ["hx"]
     (by decide),
   C3_run_hash_determinism.2.2 (fun s => s) (fun _ _ hh => hh) "m" 2 ["aa"] [] "bb" "cc"
     (by decide) (by decide) (by decide)⟩

/-! ### Claim C4 — stable first-occurrence deduplication -/

/-- C4: when every route's signature is defined (no exception escapes),
`deduplicate_routes` returns exactly the first occurrence of each distinct
signature; the survivors are a sublist of the input (stable order), their
signatures are pairwise distinct, and every input signature is represented. -/
theorem C4_dedup_first_occurrence (h : String → String) (routes : List BenchmarkTree)
    (hall : ∀ r ∈ routes, (routeSignature h r).isSome = true) :
    deduplicate_routes h routes =
      some (keepFirstOccBy (fun r => routeSignature h r) routes []) ∧
    List.Sublist (keepFirstOccBy (fun r => routeSignature h r) routes []) routes ∧
    ((keepFirstOccBy (fun r => routeSignature h r) routes []).map
      (fun r => routeSignature h r)).Nodup ∧
    ∀ r ∈ routes, routeSignature h r ∈
      (keepFirstOccBy (fun r => routeSignature h r) routes []).map
        (fun r => routeSignature h r) := by
  refine ⟨?_, keepFirstOccBy_sublist _ routes [],
    (keepFirstOccBy_nodup _ routes []).1, fun r hr => ?_⟩
  · have hloop := dedupLoop_eq h routes [] [] hall
    simpa [deduplicate_routes] using hloop
  · rcases keepFirstOccBy_complete (fun r => routeSignature h r) routes [] r hr with hin | hin
    · simp at hin
    · exact hin

/-- Witness for `C4_dedup_first_occurrence` at a concrete route list with a
duplicate (`exRoute2` duplicates `exRoute1` up to reactant order). -/
theorem C4_witness :
    (∀ r ∈ [exRoute1, exRoute2, exRouteC],
      (routeSignature (fun s => s) r).isSome = true) ∧
    deduplicate_routes (fun s => s) [exRoute1, exRoute2, exRouteC] =
      some (keepFirstOccBy (fun r => routeSignature (fun s => s) r)
        [exRoute1, exRoute2, exRouteC] []) :=
  ⟨by decide,
   (C4_dedup_first_occurrence (fun s => s) [exRoute1, exRoute2, exRouteC] (by decide)).1⟩

/-! ### `src/ursa/adapters/aizynth_adapter.py`

The raw AiZynthFinder blob (`raw_target_data: Any`) is modelled by a JSON
value type.  `AizynthRouteList.model_validate` is embedded as an explicit
recursive validator of the declared pydantic schema (a discriminated union on
the `type` tag); a failed validation is `none`, modelling the caught
`ValidationError`.  The validator recurses on an explicit depth budget that
the wrapper instantiates with `sizeOf` of the input, which strictly exceeds
the nesting depth, so the exhausted-budget branches are unreachable.
-/

/-- A JSON value (the shape of the raw model output). -/
inductive Json : Type where
  | str (s : String) : Json
  | num (n : Int) : Json
  | bool (b : Bool) : Json
  | null : Json
  | arr (items : List Json) : Json
  | obj (fields : List (String × Json)) : Json

/-- Object field access. -/
def Json.getField (j : Json) (k : String) : Option Json :=
  match j with
  | .obj fields => fields.lookup k
  | _ => none

mutual
/-- A size bound on a JSON value, used as the validator's depth budget. -/
def Json.size : Json → Nat
  | .arr items => Json.sizeList items + 1
  | .obj fields => Json.sizeFields fields + 1
  | _ => 1

def Json.sizeList : List Json → Nat
  | [] => 1
  | x :: rest => Json.size x + Json.sizeList rest + 1

def Json.sizeFields : List (String × Json) → Nat
  | [] => 1
  | (_, v) :: rest => Json.size v + Json.sizeFields rest + 1
end

mutual
/-- Embedding of the validated `AizynthMoleculeInput` (a raw `mol` node). -/
inductive AizynthMoleculeInput : Type where
  | mk (smiles : String) (children : List AizynthNodeU) (in_stock : Bool) :
      AizynthMoleculeInput

/-- Embedding of the validated `AizynthReactionInput` (a raw `reaction` node). -/
inductive AizynthReactionInput : Type where
  | mk (smiles : String) (children : List AizynthNodeU)
      (metadata : List (String × Json)) : AizynthReactionInput

/-- The discriminated union `AizynthNode` (tag `type`: `mol` or `reaction`). -/
inductive AizynthNodeU : Type where
  | mol (m : AizynthMoleculeInput) : AizynthNodeU
  | rxn (r : AizynthReactionInput) : AizynthNodeU
end

def AizynthMoleculeInput.smiles : AizynthMoleculeInput → String
  | .mk s _ _ => s

def AizynthMoleculeInput.children : AizynthMoleculeInput → List AizynthNodeU
  | .mk _ cs _ => cs

def AizynthMoleculeInput.in_stock : AizynthMoleculeInput → Bool
  | .mk _ _ b => b

mutual
/-- Validate a raw `mol` node against the `AizynthMoleculeInput` schema. -/
def validateMolF (canonDepth : Nat) (j : Json) : Option AizynthMoleculeInput :=
  match canonDepth with
  | 0 => none
  | fuel + 1 =>
    match j.getField "type", j.getField "smiles" with
    | some (.str "mol"), some (.str s) =>
      let stock : Option Bool :=
        match j.getField "in_stock" with
        | none => some false
        | some (.bool b) => some b
        | some _ => none
      let kids : Option (List Json) :=
        match j.getField "children" with
        | none => some []
        | some (.arr items) => some items
        | some _ => none
      match stock, kids with
      | some b, some items =>
        match validateNodeListF fuel items with
        | some cs => some (.mk s cs b)
        | none => none
      | _, _ => none
    | _, _ => none

/-- Validate a raw `reaction` node against the `AizynthReactionInput` schema. -/
def validateRxnF (canonDepth : Nat) (j : Json) : Option AizynthReactionInput :=
  match canonDepth with
  | 0 => none
  | fuel + 1 =>
    match j.getField "type", j.getField "smiles" with
    | some (.str "reaction"), some (.str s) =>
      let meta : Option (List (String × Json)) :=
        match j.getField "metadata" with
        | none => some []
        | some (.obj fields) => some fields
        | some _ => none
      let kids : Option (List Json) :=
        match j.getField "children" with
        | none => some []
        | some (.arr items) => some items
        | some _ => none
      match meta, kids with
      | some fields, some items =>
        match validateNodeListF fuel items with
        | some cs => some (.mk s cs fields)
        | none => none
      | _, _ => none
    | _, _ => none

/-- Validate one node of the discriminated union: any tag outside the known
set is a validation failure, not a pass-through. -/
def validateNodeF (canonDepth : Nat) (j : Json) : Option AizynthNodeU :=
  match canonDepth with
  | 0 => none
  | fuel + 1 =>
    match j.getField "type" with
    | some (.str "mol") =>
      match validateMolF fuel j with
      | some m => some (.mol m)
      | none => none
    | some (.str "reaction") =>
      match validateRxnF fuel j with
      | some r => some (.rxn r)
      | none => none
    | _ => none

/-- Validate a list of children nodes. -/
def validateNodeListF (canonDepth : Nat) (items : List Json) :
    Option (List AizynthNodeU) :=
  match canonDepth with
  | 0 => none
  | fuel + 1 =>
    match items with
    | [] => some []
    | x :: rest =>
      match validateNodeF fuel x with
      | none => none
      | some n =>
        match validateNodeListF fuel rest with
        | none => none
        | some ns => some (n :: ns)
end

/-- Validate a list of raw routes (each a `mol` root). -/
def validateMolListF (canonDepth : Nat) (items : List Json) :
    Option (List AizynthMoleculeInput) :=
  match canonDepth with
  | 0 => none
  | fuel + 1 =>
    match items with
    | [] => some []
    | x :: rest =>
      match validateMolF fuel x with
      | none => none
      | some m =>
        match validateMolListF fuel rest with
        | none => none
        | some ms => some (m :: ms)

/-- Embedding of `AizynthRouteList.model_validate`: the top-level object for a
single target is a list of `mol` roots.  `none` models `ValidationError`. -/
def validateRouteList (j : Json) : Option (List AizynthMoleculeInput) :=
  match j with
  | .arr items => validateMolListF (Json.size j) items
  | _ => none

/-- The route-local error taxonomy (`UrsaException` subclasses).  The adapter
module raises `AdapterLogicError`, which the exceptions module included under
`src/` does not declare (its callers treat it as an `UrsaException` subclass,
as §7 of the design requires); it is modelled here alongside the declared
`InvalidSmilesError` and `SchemaLogicError`. -/
inductive UrsaError : Type where
  | invalidSmiles (msg : String) : UrsaError
  | adapterLogic (msg : String) : UrsaError
  | schemaLogic (msg : String) : UrsaError

/-- Python's `str.replace` (replace every non-overlapping occurrence, left to
right), on character lists with a depth budget; the wrapper passes the input
length, which suffices for a non-empty pattern. -/
def replaceAllAux (pat rep : List Char) : Nat → List Char → List Char
  | 0, s => s
  | _ + 1, [] => []
  | fuel + 1, c :: rest =>
    if pat.isPrefixOf (c :: rest) then
      rep ++ replaceAllAux pat rep fuel (List.drop pat.length (c :: rest))
    else
      c :: replaceAllAux pat rep fuel rest

/-- Embedding of `path_prefix.replace("ursa-mol", "ursa-rxn")` and friends. -/
def pyReplace (s pat rep : String) : String :=
  ⟨replaceAllAux pat.data rep.data s.data.length s.data⟩

/-- Constructing a `MoleculeNode` through the pydantic validator, converting a
`SchemaLogicError` into the route-local error channel. -/
def mkNodeChecked (id mh smiles : String) (b : Bool) (rs : List ReactionNode) :
    Except UrsaError MoleculeNode :=
  match mkMoleculeNode id mh smiles b rs with
  | none => .error (.schemaLogic id)
  | some n => .ok n

namespace AizynthAdapter

mutual
/-- Embedding of `AizynthAdapter._build_molecule_node`.  `canon` models the
external `canonicalize_smiles` collaborator (`none` = `InvalidSmilesError`),
`h` the SHA-256 hex digest; `path` is the `path_prefix` argument.  The raw
node's `type` is `mol` by construction of the discriminated union, so the
source's defensive type check cannot fire.  When the molecule has several
child reactions only the first is used (a warning is logged in the source). -/
def _build_molecule_node (canon : String → Option String) (h : String → String) :
    AizynthMoleculeInput → String → Except UrsaError MoleculeNode
  | .mk smiles children _, path =>
    match canon smiles with
    | none => .error (.invalidSmiles ("Invalid SMILES string " ++ smiles))
    | some canon_smiles =>
      match children with
      | [] =>
        -- `is_starting_mat = not bool(children)` is true: no reaction built
        mkNodeChecked path (generate_molecule_hash h canon_smiles) canon_smiles true []
      | firstChild :: _ =>
        match firstChild with
        | .mol _ =>
          .error (.adapterLogic ("Child of molecule node was not a reaction node at " ++ path))
        | .rxn reaction_input =>
          match _build_reaction_node canon h reaction_input canon_smiles path with
          | .error e => .error e
          | .ok reaction_node =>
            mkNodeChecked path (generate_molecule_hash h canon_smiles) canon_smiles false
              [reaction_node]

/-- Embedding of `AizynthAdapter._build_reaction_node`: build each reactant
(the raw children must all be `mol` nodes), then synthesize the canonical
reaction string from the sorted reactant SMILES. -/
def _build_reaction_node (canon : String → Option String) (h : String → String) :
    AizynthReactionInput → String → String → Except UrsaError ReactionNode
  | .mk _ children _, product_smiles, path =>
    match buildReactants canon h children path 0 with
    | .error e => .error e
    | .ok (reactants, reactant_smiles_list) =>
      let reaction_smiles :=
        String.intercalate "." (sortStrings reactant_smiles_list) ++ ">>" ++ product_smiles
      .ok (.mk (pyReplace path "ursa-mol" "ursa-rxn") reaction_smiles reactants)

/-- The `for i, reactant_mol_input in enumerate(...)` loop of
`_build_reaction_node`, accumulating reactant nodes and their SMILES. -/
def buildReactants (canon : String → Option String) (h : String → String) :
    List AizynthNodeU → String → Nat → Except UrsaError (List MoleculeNode × List String)
  | [], _, _ => .ok ([], [])
  | child :: rest, path, i =>
    match child with
    | .rxn _ =>
      .error (.adapterLogic ("Child of reaction node was not a molecule node at " ++ path))
    | .mol m =>
      match _build_molecule_node canon h m (path ++ "-" ++ toString i) with
      | .error e => .error e
      | .ok reactant_node =>
        match buildReactants canon h rest path (i + 1) with
        | .error e => .error e
        | .ok (ns, ss) => .ok (reactant_node :: ns, reactant_node.smiles :: ss)
end

/-- Embedding of `AizynthAdapter._transform`: build the tree from the root,
check the root SMILES against the target, and assemble the `BenchmarkTree`. -/
def _transform (canon : String → Option String) (h : String → String)
    (aizynth_root : AizynthMoleculeInput) (target_info : TargetInfo) :
    Except UrsaError BenchmarkTree :=
  match _build_molecule_node canon h aizynth_root "ursa-mol-root" with
  | .error e => .error e
  | .ok retrosynthetic_tree =>
    if retrosynthetic_tree.smiles ≠ target_info.smiles then
      .error (.adapterLogic ("Mismatched SMILES for target " ++ target_info.id))
    else
      match mkBenchmarkTree target_info retrosynthetic_tree with
      | none => .error (.schemaLogic "BenchmarkTree")
      | some tree => .ok tree

/-- The generator loop of `AizynthAdapter.adapt`: transform each candidate,
catching `UrsaException` (log and continue). -/
def adaptLoop (canon : String → Option String) (h : String → String)
    (target_info : TargetInfo) : List AizynthMoleculeInput → List BenchmarkTree
  | [] => []
  | root :: rest =>
    match _transform canon h root target_info with
    | .error _ => adaptLoop canon h target_info rest
    | .ok tree => tree :: adaptLoop canon h target_info rest

/-- Embedding of `AizynthAdapter.adapt`: validate the raw blob (a caught
`ValidationError` yields the empty sequence), then yield the successfully
transformed candidates in order. -/
def adapt (canon : String → Option String) (h : String → String)
    (raw_target_data : Json) (target_info : TargetInfo) : List BenchmarkTree :=
  match validateRouteList raw_target_data with
  | none => []
  | some validated_routes => adaptLoop canon h target_info validated_routes

end AizynthAdapter

/-! ### Claim C5 — the adapter never raises for per-route problems -/

theorem adaptLoop_eq_filterMap (canon : String → Option String) (h : String → String)
    (ti : TargetInfo) (routes : List AizynthMoleculeInput) :
    AizynthAdapter.adaptLoop canon h ti routes =
      routes.filterMap (fun r => (AizynthAdapter._transform canon h r ti).toOption) := by
  induction routes with
  | nil => rfl
  | cons root rest ih =>
    rw [AizynthAdapter.adaptLoop, List.filterMap_cons]
    cases htr : AizynthAdapter._transform canon h root ti with
    | error e => simp [Except.toOption, htr, ih]
    | ok tree => simp [Except.toOption, htr, ih]

/-- C5: `adapt` is total — a failed whole-input validation yields the empty
sequence, and each candidate whose transformation raises any route-local
`UrsaException` is skipped; the output is exactly the successful
transformations in order, hence never longer than the candidate list. -/
theorem C5_adapt_never_raises (canon : String → Option String) (h : String → String)
    (raw : Json) (ti : TargetInfo) :
    (validateRouteList raw = none → AizynthAdapter.adapt canon h raw ti = []) ∧
    (∀ routes, validateRouteList raw = some routes →
      AizynthAdapter.adapt canon h raw ti =
        routes.filterMap (fun r => (AizynthAdapter._transform canon h r ti).toOption) ∧
      (AizynthAdapter.adapt canon h raw ti).length ≤ routes.length) := by
  constructor
  · intro hnone
    rw [AizynthAdapter.adapt, hnone]
  · intro routes hsome
    have hadapt : AizynthAdapter.adapt canon h raw ti =
        AizynthAdapter.adaptLoop canon h ti routes := by
      rw [AizynthAdapter.adapt, hsome]
    rw [hadapt, adaptLoop_eq_filterMap]
    exact ⟨rfl, List.length_filterMap_le _ _⟩

/-- A raw route that adapts cleanly: `T` made from `A + B`. -/
def adGoodJson : Json :=
  .obj [("type", .str "mol"), ("smiles", .str "T"),
    ("children", .arr [.obj [("type", .str "reaction"), ("smiles", .str "x"),
      ("children", .arr [.obj [("type", .str "mol"), ("smiles", .str "A")],
                         .obj [("type", .str "mol"), ("smiles", .str "B")]])]])]

/-- A raw route that breaks the bipartite structure: a molecule whose child is
again a molecule. -/
def adBadJson : Json :=
  .obj [("type", .str "mol"), ("smiles", .str "T"),
    ("children", .arr [.obj [("type", .str "mol"), ("smiles", .str "C")]])]

/-- A raw target blob holding one good and one bad candidate route. -/
def adRawTwo : Json := .arr [adGoodJson, adBadJson]

/-- The validated form of `adGoodJson`. -/
def adGoodRoot : AizynthMoleculeInput :=
  .mk "T" [.rxn (.mk "x" [.mol (.mk "A" [] false), .mol (.mk "B" [] false)] [])] false

/-- The validated form of `adBadJson`. -/
def adBadRoot : AizynthMoleculeInput := .mk "T" [.mol (.mk "C" [] false)] false

/-- Witness for `C5_adapt_never_raises`: a non-list blob validates to nothing
and adapts to the empty sequence; a two-candidate blob whose second candidate
fails transformation adapts to the successful transformations only. -/
theorem C5_witness :
    AizynthAdapter.adapt (fun s => some s) (fun s => s) (Json.str "oops") ⟨"T", "t1"⟩ = [] ∧
    AizynthAdapter.adapt (fun s => some s) (fun s => s) adRawTwo ⟨"T", "t1"⟩ =
      [adGoodRoot, adBadRoot].filterMap
        (fun r => (AizynthAdapter._transform (fun s => some s) (fun s => s) r ⟨"T", "t1"⟩).toOption) ∧
    (AizynthAdapter.adapt (fun s => some s) (fun s => s) adRawTwo ⟨"T", "t1"⟩).length ≤
      [adGoodRoot, adBadRoot].length :=
  ⟨(C5_adapt_never_raises (fun s => some s) (fun s => s) (Json.str "oops") ⟨"T", "t1"⟩).1 rfl,
   ((C5_adapt_never_raises (fun s => some s) (fun s => s) adRawTwo ⟨"T", "t1"⟩).2
     [adGoodRoot, adBadRoot] rfl).1,
   ((C5_adapt_never_raises (fun s => some s) (fun s => s) adRawTwo ⟨"T", "t1"⟩).2
     [adGoodRoot, adBadRoot] rfl).2⟩

/-! ### Claim C6 — where the root = target invariant is enforced -/

/-- A structurally valid molecule (a starting material) whose canonical
structure `Q` differs from the target structure `T` below. -/
def mismatchTree : MoleculeNode := .mk "root" "sha256-Q" "Q" true []

/-- C6 counterexample: the `BenchmarkTree` pydantic model declares no
validator relating the root to the target, so constructing a `BenchmarkTree`
whose root structure differs from `target.structure` succeeds. -/
theorem C6_counterexample :
    (mkMoleculeNode "root" "sha256-Q" "Q" true []).isSome = true ∧
    (mkBenchmarkTree ⟨"T", "t1"⟩ mismatchTree).isSome = true ∧
    mismatchTree.smiles ≠ (⟨"T", "t1"⟩ : TargetInfo).smiles :=
  ⟨by decide, rfl, by decide⟩

/-- C6 (amended): the invariant is enforced by the adapter, not by the
`BenchmarkTree` constructor: `_transform` raises `AdapterLogicError` on a
root/target mismatch before assembling the aggregate, so every tree the
adapter produces satisfies root structure = target structure (and carries the
supplied target). -/
theorem C6_root_matches_target (canon : String → Option String) (h : String → String)
    (root : AizynthMoleculeInput) (ti : TargetInfo) (t : BenchmarkTree)
    (htr : AizynthAdapter._transform canon h root ti = .ok t) :
    t.retrosynthetic_tree.smiles = t.target.smiles ∧ t.target = ti := by
  unfold AizynthAdapter._transform at htr
  cases hb : AizynthAdapter._build_molecule_node canon h root "ursa-mol-root" with
  | error e => rw [hb] at htr; exact absurd htr (by simp)
  | ok tree =>
    rw [hb] at htr
    by_cases hsm : tree.smiles ≠ ti.smiles
    · simp only [if_pos hsm] at htr
      exact absurd htr (by simp)
    · simp only [if_neg hsm, mkBenchmarkTree] at htr
      push_neg at hsm
      have ht : ({ target := ti, retrosynthetic_tree := tree } : BenchmarkTree) = t :=
        Except.ok.inj htr
      rw [← ht]
      exact ⟨hsm, rfl⟩

/-- The tree the adapter builds from `adGoodJson` for target `T`. -/
def adGoodTree : BenchmarkTree :=
  ⟨⟨"T", "t1"⟩, .mk "ursa-mol-root" "sha256-T" "T" false
    [.mk "ursa-rxn-root" "A.B>>T"
      [.mk "ursa-mol-root-0" "sha256-A" "A" true [],
       .mk "ursa-mol-root-1" "sha256-B" "B" true []]]⟩

/-- Witness for `C6_root_matches_target`: a concrete successful transform. -/
theorem C6_witness :
    AizynthAdapter._transform (fun s => some s) (fun s => s) adGoodRoot ⟨"T", "t1"⟩ =
      .ok adGoodTree ∧
    adGoodTree.retrosynthetic_tree.smiles = adGoodTree.target.smiles ∧
    adGoodTree.target = (⟨"T", "t1"⟩ : TargetInfo) :=
  ⟨rfl,
   (C6_root_matches_target (fun s => some s) (fun s => s) adGoodRoot ⟨"T", "t1"⟩
     adGoodTree rfl).1,
   (C6_root_matches_target (fun s => some s) (fun s => s) adGoodRoot ⟨"T", "t1"⟩
     adGoodTree rfl).2⟩

/-! ### Claim C7 — reaction signature synthesis -/

theorem eraseIdsM_smiles {n1 n2 : MoleculeNode} (he : eraseIdsM n1 = eraseIdsM n2) :
    n1.smiles = n2.smiles := by
  cases n1 with
  | mk i1 mh1 s1 sm1 rs1 =>
    cases n2 with
    | mk i2 mh2 s2 sm2 rs2 =>
      simp only [eraseIdsM, MoleculeNode.mk.injEq, true_and] at he
      exact he.2.1

theorem map_toOption_ok {α β γ : Type} {f : α → γ} {e1 e2 : Except β α}
    (heq : e1.toOption.map f = e2.toOption.map f) {a : α} (h1 : e1 = .ok a) :
    ∃ a', e2 = .ok a' ∧ f a = f a' := by
  subst h1
  cases e2 with
  | error e => simp [Except.toOption] at heq
  | ok a' =>
    refine ⟨a', rfl, ?_⟩
    simpa [Except.toOption] using heq


mutual
/-- Success and id-erased result of `_build_molecule_node` do not depend on
the path argument (paths only feed the ids and error messages). -/
theorem build_mol_path_indep (canon : String → Option String) (h : String → String)
    (m : AizynthMoleculeInput) :
    ∀ (p1 p2 : String),
    (AizynthAdapter._build_molecule_node canon h m p1).toOption.map eraseIdsM =
    (AizynthAdapter._build_molecule_node canon h m p2).toOption.map eraseIdsM := by
  cases m with
  | mk smiles children stock =>
    cases children with
    | nil =>
      intro p1 p2
      cases hc : canon smiles with
      | none => simp [AizynthAdapter._build_molecule_node, hc]
      | some cs =>
        simp [AizynthAdapter._build_molecule_node, hc, mkNodeChecked, mkMoleculeNode,
          Except.toOption, eraseIdsM, eraseIdsRList]
    | cons c rest =>
      cases c with
      | mol m' =>
        intro p1 p2
        cases hc : canon smiles with
        | none => simp [AizynthAdapter._build_molecule_node, hc]
        | some cs => simp [AizynthAdapter._build_molecule_node, hc, Except.toOption]
      | rxn ri =>
        have hrx := build_rxn_path_indep canon h ri
        intro p1 p2
        cases hc : canon smiles with
        | none => simp [AizynthAdapter._build_molecule_node, hc]
        | some cs =>
          simp only [AizynthAdapter._build_molecule_node, hc]
          cases hr1 : AizynthAdapter._build_reaction_node canon h ri cs p1 with
          | error e1 =>
            cases hr2 : AizynthAdapter._build_reaction_node canon h ri cs p2 with
            | error e2 => simp [Except.toOption]
            | ok r2 =>
              have hx := hrx cs p1 p2
              rw [hr1, hr2] at hx
              simp [Except.toOption] at hx
          | ok r1 =>
            cases hr2 : AizynthAdapter._build_reaction_node canon h ri cs p2 with
            | error e2 =>
              have hx := hrx cs p1 p2
              rw [hr1, hr2] at hx
              simp [Except.toOption] at hx
            | ok r2 =>
              have hx := hrx cs p1 p2
              rw [hr1, hr2] at hx
              have hre : eraseIdsR r1 = eraseIdsR r2 := by
                simpa [Except.toOption] using hx
              simp [mkNodeChecked, mkMoleculeNode, Except.toOption, eraseIdsM,
                eraseIdsRList, hre]

/-- Success and id-erased result of `_build_reaction_node` do not depend on
the path argument. -/
theorem build_rxn_path_indep (canon : String → Option String) (h : String → String)
    (ri : AizynthReactionInput) :
    ∀ (product p1 p2 : String),
    (AizynthAdapter._build_reaction_node canon h ri product p1).toOption.map eraseIdsR =
    (AizynthAdapter._build_reaction_node canon h ri product p2).toOption.map eraseIdsR := by
  cases ri with
  | mk rsmiles children meta =>
    have hre := build_reactants_path_indep canon h children
    intro product p1 p2
    simp only [AizynthAdapter._build_reaction_node]
    cases hb1 : AizynthAdapter.buildReactants canon h children p1 0 with
    | error e1 =>
      cases hb2 : AizynthAdapter.buildReactants canon h children p2 0 with
      | error e2 => simp [Except.toOption]
      | ok pr2 =>
        have hx := hre p1 p2 0 0
        rw [hb1, hb2] at hx
        simp [Except.toOption] at hx
    | ok pr1 =>
      cases hb2 : AizynthAdapter.buildReactants canon h children p2 0 with
      | error e2 =>
        have hx := hre p1 p2 0 0
        rw [hb1, hb2] at hx
        simp [Except.toOption] at hx
      | ok pr2 =>
        have hx := hre p1 p2 0 0
        rw [hb1, hb2] at hx
        obtain ⟨ns1, ss1⟩ := pr1
        obtain ⟨ns2, ss2⟩ := pr2
        have hx' : (eraseIdsMList ns1, ss1) = (eraseIdsMList ns2, ss2) := by
          simpa [Except.toOption] using hx
        rw [Prod.mk.injEq] at hx'
        obtain ⟨hns, hss⟩ := hx'
        simp [Except.toOption, eraseIdsR, hns, hss]

/-- Success, id-erased reactants, and collected SMILES of the reactant loop do
not depend on the path or enumeration index. -/
theorem build_reactants_path_indep (canon : String → Option String) (h : String → String)
    (children : List AizynthNodeU) :
    ∀ (p1 p2 : String) (i1 i2 : Nat),
    (AizynthAdapter.buildReactants canon h children p1 i1).toOption.map
      (fun r => (eraseIdsMList r.1, r.2)) =
    (AizynthAdapter.buildReactants canon h children p2 i2).toOption.map
      (fun r => (eraseIdsMList r.1, r.2)) := by
  cases children with
  | nil => intro p1 p2 i1 i2; simp [AizynthAdapter.buildReactants, Except.toOption]
  | cons c rest =>
    cases c with
    | rxn ri =>
      intro p1 p2 i1 i2
      simp [AizynthAdapter.buildReactants, Except.toOption]
    | mol m =>
      have hm := build_mol_path_indep canon h m
      have hrec := build_reactants_path_indep canon h rest
      intro p1 p2 i1 i2
      simp only [AizynthAdapter.buildReactants]
      cases h1 : AizynthAdapter._build_molecule_node canon h m (p1 ++ "-" ++ toString i1) with
      | error e1 =>
        cases h2 : AizynthAdapter._build_molecule_node canon h m (p2 ++ "-" ++ toString i2) with
        | error e2 => simp [Except.toOption]
        | ok n2 =>
          have hx := hm (p1 ++ "-" ++ toString i1) (p2 ++ "-" ++ toString i2)
          rw [h1, h2] at hx
          simp [Except.toOption] at hx
      | ok n1 =>
        cases h2 : AizynthAdapter._build_molecule_node canon h m (p2 ++ "-" ++ toString i2) with
        | error e2 =>
          have hx := hm (p1 ++ "-" ++ toString i1) (p2 ++ "-" ++ toString i2)
          rw [h1, h2] at hx
          simp [Except.toOption] at hx
        | ok n2 =>
          have hx := hm (p1 ++ "-" ++ toString i1) (p2 ++ "-" ++ toString i2)
          rw [h1, h2] at hx
          have hmm : eraseIdsM n1 = eraseIdsM n2 := by
            simpa [Except.toOption] using hx
          cases hr1 : AizynthAdapter.buildReactants canon h rest p1 (i1 + 1) with
          | error e1 =>
            cases hr2 : AizynthAdapter.buildReactants canon h rest p2 (i2 + 1) with
            | error e2 => simp [Except.toOption]
            | ok pr2 =>
              have hx2 := hrec p1 p2 (i1 + 1) (i2 + 1)
              rw [hr1, hr2] at hx2
              simp [Except.toOption] at hx2
          | ok pr1 =>
            cases hr2 : AizynthAdapter.buildReactants canon h rest p2 (i2 + 1) with
            | error e2 =>
              have hx2 := hrec p1 p2 (i1 + 1) (i2 + 1)
              rw [hr1, hr2] at hx2
              simp [Except.toOption] at hx2
            | ok pr2 =>
              have hx2 := hrec p1 p2 (i1 + 1) (i2 + 1)
              rw [hr1, hr2] at hx2
              obtain ⟨ns1, ss1⟩ := pr1
              obtain ⟨ns2, ss2⟩ := pr2
              have hx2' : (eraseIdsMList ns1, ss1) = (eraseIdsMList ns2, ss2) := by
                simpa [Except.toOption] using hx2
              rw [Prod.mk.injEq] at hx2'
              obtain ⟨hns, hss⟩ := hx2'
              simp [Except.toOption, eraseIdsMList, hmm, hns, hss, eraseIdsM_smiles hmm]
end

/-- The SMILES list collected by the reactant loop is the reactants' SMILES. -/
theorem buildReactants_smiles (canon : String → Option String) (h : String → String) :
    ∀ (children : List AizynthNodeU) (p : String) (i : Nat)
      (ns : List MoleculeNode) (ss : List String),
      AizynthAdapter.buildReactants canon h children p i = .ok (ns, ss) →
      ss = ns.map MoleculeNode.smiles := by
  intro children
  induction children with
  | nil =>
    intro p i ns ss hok
    rw [AizynthAdapter.buildReactants] at hok
    injection hok with hpair
    injection hpair with hns hss
    rw [← hns, ← hss]
    rfl
  | cons c rest ih =>
    intro p i ns ss hok
    cases c with
    | rxn ri => rw [AizynthAdapter.buildReactants] at hok; exact absurd hok (by simp)
    | mol m =>
      rw [AizynthAdapter.buildReactants] at hok
      cases h1 : AizynthAdapter._build_molecule_node canon h m (p ++ "-" ++ toString i) with
      | error e => rw [h1] at hok; exact absurd hok (by simp)
      | ok n =>
        rw [h1] at hok
        cases h2 : AizynthAdapter.buildReactants canon h rest p (i + 1) with
        | error e => rw [h2] at hok; exact absurd hok (by simp)
        | ok pr =>
          obtain ⟨ns1, ss1⟩ := pr
          rw [h2] at hok
          injection hok with hpair
          injection hpair with hns hss
          rw [← hns, ← hss, List.map_cons, ih p (i + 1) ns1 ss1 h2]

/-- Under a permutation of the raw children (and arbitrary path/index), a
successful reactant build stays successful with a permuted SMILES list. -/
theorem buildReactants_perm (canon : String → Option String) (h : String → String)
    {children children' : List AizynthNodeU} (hp : List.Perm children children') :
    ∀ (p p' : String) (i i' : Nat) (ns : List MoleculeNode) (ss : List String),
      AizynthAdapter.buildReactants canon h children p i = .ok (ns, ss) →
      ∃ ns' ss', AizynthAdapter.buildReactants canon h children' p' i' = .ok (ns', ss') ∧
        List.Perm ss ss' := by
  induction hp with
  | nil =>
    intro p p' i i' ns ss hok
    rw [AizynthAdapter.buildReactants] at hok
    injection hok with hpair
    injection hpair with hns hss
    exact ⟨[], [], rfl, by rw [← hss]⟩
  | cons x hperm ih =>
    intro p p' i i' ns ss hok
    cases x with
    | rxn ri => rw [AizynthAdapter.buildReactants] at hok; exact absurd hok (by simp)
    | mol m =>
      rw [AizynthAdapter.buildReactants] at hok
      cases h1 : AizynthAdapter._build_molecule_node canon h m (p ++ "-" ++ toString i) with
      | error e => rw [h1] at hok; exact absurd hok (by simp)
      | ok n =>
        rw [h1] at hok
        cases h2 : AizynthAdapter.buildReactants canon h _ p (i + 1) with
        | error e => rw [h2] at hok; exact absurd hok (by simp)
        | ok pr =>
          obtain ⟨ns1, ss1⟩ := pr
          rw [h2] at hok
          injection hok with hpair
          injection hpair with hns hss
          obtain ⟨n', hn', hne⟩ := map_toOption_ok
            (build_mol_path_indep canon h m (p ++ "-" ++ toString i)
              (p' ++ "-" ++ toString i')) h1
          obtain ⟨ns2, ss2, hok2, hperm2⟩ := ih p p' (i + 1) (i' + 1) ns1 ss1 h2
          refine ⟨n' :: ns2, n'.smiles :: ss2, ?_, ?_⟩
          · rw [AizynthAdapter.buildReactants, hn', hok2]
          · rw [← hss]
            rw [eraseIdsM_smiles hne]
            exact hperm2.cons _
  | swap x y l =>
    intro p p' i i' ns ss hok
    cases y with
    | rxn ri =>
      rw [AizynthAdapter.buildReactants] at hok
      exact absurd hok (by simp)
    | mol m2 =>
      rw [AizynthAdapter.buildReactants] at hok
      cases h2 : AizynthAdapter._build_molecule_node canon h m2 (p ++ "-" ++ toString i) with
      | error e => rw [h2] at hok; exact absurd hok (by simp)
      | ok n2 =>
        rw [h2] at hok
        cases x with
        | rxn ri =>
          rw [AizynthAdapter.buildReactants] at hok
          exact absurd hok (by simp)
        | mol m1 =>
          rw [AizynthAdapter.buildReactants] at hok
          cases h1 : AizynthAdapter._build_molecule_node canon h m1
              (p ++ "-" ++ toString (i + 1)) with
          | error e => rw [h1] at hok; exact absurd hok (by simp)
          | ok n1 =>
            rw [h1] at hok
            cases hrest : AizynthAdapter.buildReactants canon h l p (i + 1 + 1) with
            | error e => rw [hrest] at hok; exact absurd hok (by simp)
            | ok pr =>
              obtain ⟨nsl, ssl⟩ := pr
              rw [hrest] at hok
              injection hok with hpair
              injection hpair with hns hss
              obtain ⟨n1', hn1', hne1⟩ := map_toOption_ok
                (build_mol_path_indep canon h m1 (p ++ "-" ++ toString (i + 1))
                  (p' ++ "-" ++ toString i')) h1
              obtain ⟨n2', hn2', hne2⟩ := map_toOption_ok
                (build_mol_path_indep canon h m2 (p ++ "-" ++ toString i)
                  (p' ++ "-" ++ toString (i' + 1))) h2
              obtain ⟨nsl', hnsl', hnel⟩ := map_toOption_ok
                (build_reactants_path_indep canon h l p p' (i + 1 + 1) (i' + 1 + 1)) hrest
              obtain ⟨nsl2, ssl2⟩ := nsl'
              have hssl : ssl = ssl2 := by simpa using congrArg Prod.snd hnel
              refine ⟨n1' :: n2' :: nsl2, n1'.smiles :: n2'.smiles :: ssl2, ?_, ?_⟩
              · rw [AizynthAdapter.buildReactants, hn1',
                  AizynthAdapter.buildReactants, hn2', hnsl']
              · rw [← hss, ← eraseIdsM_smiles hne1, ← eraseIdsM_smiles hne2, ← hssl]
                exact List.Perm.swap _ _ _
  | trans hp1 hp2 ih1 ih2 =>
    intro p p' i i' ns ss hok
    obtain ⟨ns1, ss1, hok1, hperm1⟩ := ih1 p p' i i' ns ss hok
    obtain ⟨ns2, ss2, hok2, hperm2⟩ := ih2 p' p' i' i' ns1 ss1 hok1
    exact ⟨ns2, ss2, hok2, hperm1.trans hperm2⟩

/-- C7: every reaction node the adapter builds carries the canonical reaction
string: the reactants' canonical SMILES sorted lexicographically, joined with
`.`, then `>>` and the product's canonical SMILES; and the string is invariant
under any reordering of the raw reactant children. -/
theorem C7_reaction_signature (canon : String → Option String) (h : String → String) :
    (∀ (rxn : AizynthReactionInput) (product path : String) (R : ReactionNode),
      AizynthAdapter._build_reaction_node canon h rxn product path = .ok R →
      R.reaction_smiles =
        String.intercalate "." (sortStrings (R.reactants.map MoleculeNode.smiles)) ++
          ">>" ++ product) ∧
    (∀ (s product path path' : String) (meta meta' : List (String × Json))
       (children children' : List AizynthNodeU) (R : ReactionNode),
      List.Perm children children' →
      AizynthAdapter._build_reaction_node canon h (.mk s children meta) product path = .ok R →
      ∃ R', AizynthAdapter._build_reaction_node canon h (.mk s children' meta') product path' =
          .ok R' ∧ R'.reaction_smiles = R.reaction_smiles) := by
  constructor
  · intro rxn product path R hok
    cases rxn with
    | mk rsmiles children meta =>
      rw [AizynthAdapter._build_reaction_node] at hok
      cases hb : AizynthAdapter.buildReactants canon h children path 0 with
      | error e => rw [hb] at hok; exact absurd hok (by simp)
      | ok pr =>
        obtain ⟨ns, ss⟩ := pr
        rw [hb] at hok
        have hss := buildReactants_smiles canon h children path 0 ns ss hb
        rw [← Except.ok.inj hok]
        simp [ReactionNode.reaction_smiles, ReactionNode.reactants, hss]
  · intro s product path path' meta meta' children children' R hperm hok
    rw [AizynthAdapter._build_reaction_node] at hok
    cases hb : AizynthAdapter.buildReactants canon h children path 0 with
    | error e => rw [hb] at hok; exact absurd hok (by simp)
    | ok pr =>
      obtain ⟨ns, ss⟩ := pr
      rw [hb] at hok
      obtain ⟨ns', ss', hb', hss⟩ := buildReactants_perm canon h hperm path path' 0 0 ns ss hb
      refine ⟨.mk (pyReplace path' "ursa-mol" "ursa-rxn")
        (String.intercalate "." (sortStrings ss') ++ ">>" ++ product) ns', ?_, ?_⟩
      · rw [AizynthAdapter._build_reaction_node, hb']
      · rw [← Except.ok.inj hok]
        simp [ReactionNode.reaction_smiles, sortStrings_congr hss]

/-- The reaction node built from raw children `[B, A]` for product `T`. -/
def c7Reaction : ReactionNode :=
  .mk "ursa-rxn-root" "A.B>>T"
    [.mk "ursa-mol-root-0" "sha256-B" "B" true [],
     .mk "ursa-mol-root-1" "sha256-A" "A" true []]

/-- Raw reaction input with children listed `[B, A]`. -/
def c7RxnInput : AizynthReactionInput :=
  .mk "x" [.mol (.mk "B" [] false), .mol (.mk "A" [] false)] []

/-- Witness for `C7_reaction_signature`: raw children `[B, A]` yield the
signature `"A.B>>T"`, and reordering them to `[A, B]` yields the same
signature. -/
theorem C7_witness :
    AizynthAdapter._build_reaction_node (fun s => some s) (fun s => s) c7RxnInput "T"
      "ursa-mol-root" = .ok c7Reaction ∧
    c7Reaction.reaction_smiles = "A.B>>T" ∧
    c7Reaction.reaction_smiles =
      String.intercalate "." (sortStrings (c7Reaction.reactants.map MoleculeNode.smiles)) ++
        ">>" ++ "T" ∧
    ((AizynthAdapter._build_reaction_node (fun s => some s) (fun s => s)
        (.mk "x" [.mol (.mk "A" [] false), .mol (.mk "B" [] false)] []) "T"
        "other-path").toOption.map ReactionNode.reaction_smiles) = some "A.B>>T" := by
  refine ⟨rfl, by decide, ?_, ?_⟩
  · exact (C7_reaction_signature (fun s => some s) (fun s => s)).1 c7RxnInput "T"
      "ursa-mol-root" c7Reaction rfl
  · obtain ⟨R', hR', hsm⟩ := (C7_reaction_signature (fun s => some s) (fun s => s)).2
      "x" "T" "ursa-mol-root" "other-path" [] []
      [.mol (.mk "B" [] false), .mol (.mk "A" [] false)]
      [.mol (.mk "A" [] false), .mol (.mk "B" [] false)] c7Reaction
      (List.Perm.swap _ _ _) rfl
    rw [hR']
    simp [Except.toOption, hsm]
    decide

/-! ### Claim C10 — extra child reactions are silently discarded -/

/-- C10: a raw molecule with two or more child reactions is not rejected: the
adapter behaves exactly as if only the first child were present (a warning is
logged in the source), and on success the node has exactly one reaction. -/
theorem C10_first_reaction_only (canon : String → Option String) (h : String → String)
    (s : String) (c0 c1 : AizynthNodeU) (cs : List AizynthNodeU) (stock : Bool)
    (path : String) :
    AizynthAdapter._build_molecule_node canon h (.mk s (c0 :: c1 :: cs) stock) path =
      AizynthAdapter._build_molecule_node canon h (.mk s [c0] stock) path ∧
    ∀ n, AizynthAdapter._build_molecule_node canon h (.mk s (c0 :: c1 :: cs) stock) path =
        .ok n → n.reactions.length = 1 := by
  constructor
  · unfold AizynthAdapter._build_molecule_node
    cases canon s with
    | none => rfl
    | some cs' =>
      cases c0 with
      | mol m' => rfl
      | rxn ri => rfl
  · intro n hok
    rw [AizynthAdapter._build_molecule_node] at hok
    cases hc : canon s with
    | none => rw [hc] at hok; exact absurd hok (by simp)
    | some cs' =>
      rw [hc] at hok
      cases c0 with
      | mol m' => exact absurd hok (by simp)
      | rxn ri =>
        cases hr : AizynthAdapter._build_reaction_node canon h ri cs' path with
        | error e => simp [hr] at hok
        | ok r =>
          simp only [hr, mkNodeChecked, mkMoleculeNode] at hok
          have hn : MoleculeNode.mk path (generate_molecule_hash h cs') cs' false [r] = n := by
            simpa using hok
          rw [← hn]
          rfl

/-- The node the adapter builds when the raw molecule `T` carries two child
reactions: only the first is kept. -/
def c10Node : MoleculeNode := .mk "ursa-mol-root" "sha256-T" "T" false [c7Reaction]

/-- Witness for `C10_first_reaction_only` at a concrete two-reaction input. -/
theorem C10_witness :
    AizynthAdapter._build_molecule_node (fun s => some s) (fun s => s)
        (.mk "T" [.rxn c7RxnInput, .rxn (.mk "y" [] [])] false) "ursa-mol-root" =
      AizynthAdapter._build_molecule_node (fun s => some s) (fun s => s)
        (.mk "T" [.rxn c7RxnInput] false) "ursa-mol-root" ∧
    AizynthAdapter._build_molecule_node (fun s => some s) (fun s => s)
        (.mk "T" [.rxn c7RxnInput, .rxn (.mk "y" [] [])] false) "ursa-mol-root" =
      .ok c10Node ∧
    c10Node.reactions.length = 1 :=
  ⟨(C10_first_reaction_only (fun s => some s) (fun s => s) "T" (.rxn c7RxnInput)
      (.rxn (.mk "y" [] [])) [] false "ursa-mol-root").1,
   rfl,
   (C10_first_reaction_only (fun s => some s) (fun s => s) "T" (.rxn c7RxnInput)
      (.rxn (.mk "y" [] [])) [] false "ursa-mol-root").2 c10Node rfl⟩

/-! ### Claim C8 — the manifest statistics and the duplication factor

`process_model_run` (core.py lines 110-123) assembles the manifest's
`statistics` mapping from its local `stats` accumulators; `RunStatistics`
(schemas.py) computes a `duplication_factor` and a `to_manifest_dict`
containing it, but `process_model_run` does not use `RunStatistics`.
-/

/-- Embedding of the `statistics` mapping written by `process_model_run`:
`succeeded` and `failed` are the `stats["succeeded"]`/`stats["failed"]`
counters, `targets_with_pred` the set of targets with a prediction, and
`preds_per_target` the per-target unique-route counts. -/
def coreManifestStatistics (succeeded failed : Nat) (targets_with_pred : List String)
    (preds_per_target : List Nat) : List (String × StatVal) :=
  let num_targets_with_preds := targets_with_pred.dedup.length
  let avg_preds : ℚ :=
    if num_targets_with_preds > 0 then
      (preds_per_target.sum : ℚ) / (num_targets_with_preds : ℚ)
    else 0
  [("total_unique_routes_saved", .int succeeded),
   ("total_routes_failed_or_duplicate", .int failed),
   ("num_targets_with_at_least_one_route", .int num_targets_with_preds),
   ("avg_unique_routes_per_successful_target", .float (round2 avg_preds)),
   ("max_unique_routes_for_any_target", .int (preds_per_target.foldr max 0))]

/-- C8 (the code evaluated against the claim): the statistics mapping emitted
by `process_model_run` never contains a `duplication_factor` key — for any run
whatsoever — although `RunStatistics.to_manifest_dict` defines one (equal to
`1` on the happy-path run of `tests/test_core.py`, as that test asserts of the
manifest). -/
theorem C8_manifest_statistics :
    (∀ (succeeded failed : Nat) (tw : List String) (ppt : List Nat),
      "duplication_factor" ∉ (coreManifestStatistics succeeded failed tw ppt).map Prod.fst) ∧
    "duplication_factor" ∈
      ((RunStatistics.to_manifest_dict ⟨1, 0, 0, 1, 1, ["aspirin"]⟩).map Prod.fst) ∧
    RunStatistics.duplication_factor ⟨1, 0, 0, 1, 1, ["aspirin"]⟩ = 1 := by
  refine ⟨fun succeeded failed tw ppt => ?_, ?_, ?_⟩
  · simp only [coreManifestStatistics, List.map_cons, List.map_nil]
    decide
  · simp [RunStatistics.to_manifest_dict]
  · show RunStatistics.duplication_factor ⟨1, 0, 0, 1, 1, ["aspirin"]⟩ = 1
    norm_num [RunStatistics.duplication_factor, round2]

end Ursa
